import Mathlib

/-!
# Verification of the sourcify monitor core

A shallow embedding of the monitor subsystem of this repository:

* `SourceFetcher` (src/src/monitor/source-fetcher.ts): the deduplicating
  polling fetcher keyed by content-hash, with its subscription map,
  timestamp map, fetch loop, cleanup and notification logic.
* `ChainMonitor` (src/src/monitor/monitor.ts): the per-chain block walker
  (`processBlock`) and the bytecode retry logic (`processBytecode`).
* The Injector's verify-and-store path, modelled from the spec (its source
  is not part of this tree; only its tests are).

JavaScript objects keyed by strings are embedded as association lists with
first-occurrence lookup semantics; callbacks and `Subscription` object
identities are embedded as freshly allocated natural numbers, so that
"the same callback fires twice" and "the flag of a detached subscription
object is written" are expressible.  The asynchronous completion of a
`nodeFetch` call is split into two events, mirroring the promise
structure of the source: the settlement of the fetch promise (which runs
the `finally` handler clearing `beingProcessed`) and the later completion
of `resp.text()` (which runs the status check and notification).
-/

namespace Sourcify

/-! ## Association-list maps (JavaScript objects keyed by strings) -/

def mapLookup {κ α : Type} [DecidableEq κ] (k : κ) : List (κ × α) → Option α
  | [] => none
  | (k', v) :: rest => if k' = k then some v else mapLookup k rest

def mapErase {κ α : Type} [DecidableEq κ] (k : κ) : List (κ × α) → List (κ × α)
  | [] => []
  | (k', v) :: rest => if k' = k then rest else (k', v) :: mapErase k rest

def mapModify {κ α : Type} [DecidableEq κ] (k : κ) (f : α → α) :
    List (κ × α) → List (κ × α)
  | [] => []
  | (k', v) :: rest => if k' = k then (k', f v) :: rest else (k', v) :: mapModify k f rest

def mapSet {κ α : Type} [DecidableEq κ] (k : κ) (v : α) : List (κ × α) → List (κ × α)
  | [] => [(k, v)]
  | (k', v') :: rest => if k' = k then (k, v) :: rest else (k', v') :: mapSet k v rest

section MapLemmas

variable {κ α : Type} [DecidableEq κ]

theorem mapLookup_eq_none {k : κ} {l : List (κ × α)} :
    mapLookup k l = none ↔ k ∉ l.map Prod.fst := by
  induction l with
  | nil => simp [mapLookup]
  | cons p rest ih =>
    obtain ⟨k', v⟩ := p
    by_cases h : k' = k
    · subst h
      simp [mapLookup]
    · simp [mapLookup, h, ih, Ne.symm h]

theorem mapLookup_mem {k : κ} {v : α} {l : List (κ × α)}
    (h : mapLookup k l = some v) : (k, v) ∈ l := by
  induction l with
  | nil => simp [mapLookup] at h
  | cons p rest ih =>
    obtain ⟨k', v'⟩ := p
    by_cases hk : k' = k
    · subst hk
      simp [mapLookup] at h
      simp [h]
    · simp [mapLookup, hk] at h
      exact List.mem_cons_of_mem _ (ih h)

theorem mapLookup_mapModify_self (k : κ) (f : α → α) (l : List (κ × α)) :
    mapLookup k (mapModify k f l) = (mapLookup k l).map f := by
  induction l with
  | nil => simp [mapLookup, mapModify]
  | cons p rest ih =>
    obtain ⟨k', v⟩ := p
    by_cases h : k' = k
    · subst h
      simp [mapLookup, mapModify]
    · simp [mapLookup, mapModify, h, ih]

theorem mapLookup_mapModify_ne {k k' : κ} (h : k' ≠ k) (f : α → α) (l : List (κ × α)) :
    mapLookup k' (mapModify k f l) = mapLookup k' l := by
  induction l with
  | nil => simp [mapModify]
  | cons p rest ih =>
    obtain ⟨k₀, v⟩ := p
    by_cases h₀ : k₀ = k
    · subst h₀
      have h₁ : ¬(k₀ = k') := fun hc => h (hc ▸ rfl)
      simp [mapModify, mapLookup, h₁]
    · by_cases h₁ : k₀ = k'
      · subst h₁
        simp [mapModify, mapLookup, h₀]
      · simp [mapModify, mapLookup, h₀, h₁, ih]

theorem keys_mapModify (k : κ) (f : α → α) (l : List (κ × α)) :
    (mapModify k f l).map Prod.fst = l.map Prod.fst := by
  induction l with
  | nil => simp [mapModify]
  | cons p rest ih =>
    obtain ⟨k', v⟩ := p
    by_cases h : k' = k
    · simp [mapModify, h]
    · simp [mapModify, h, ih]

theorem mapErase_sublist (k : κ) (l : List (κ × α)) : (mapErase k l).Sublist l := by
  induction l with
  | nil => simp [mapErase]
  | cons p rest ih =>
    obtain ⟨k', v⟩ := p
    by_cases h : k' = k
    · simp [mapErase, h]
    · simpa [mapErase, h] using ih.cons₂ (k', v)

theorem mapLookup_mapErase_self {k : κ} {l : List (κ × α)}
    (hnd : (l.map Prod.fst).Nodup) : mapLookup k (mapErase k l) = none := by
  induction l with
  | nil => simp [mapErase, mapLookup]
  | cons p rest ih =>
    obtain ⟨k', v⟩ := p
    simp only [List.map_cons, List.nodup_cons] at hnd
    by_cases h : k' = k
    · subst h
      rw [mapErase, if_pos rfl, mapLookup_eq_none]
      exact hnd.1
    · rw [mapErase, if_neg h, mapLookup, if_neg h]
      exact ih hnd.2

theorem mapLookup_mapErase_ne {k k' : κ} (h : k' ≠ k) (l : List (κ × α)) :
    mapLookup k' (mapErase k l) = mapLookup k' l := by
  induction l with
  | nil => simp [mapErase]
  | cons p rest ih =>
    obtain ⟨k₀, v⟩ := p
    by_cases h₀ : k₀ = k
    · subst h₀
      have h₁ : ¬(k₀ = k') := fun hc => h (hc ▸ rfl)
      simp [mapErase, mapLookup, h₁]
    · by_cases h₁ : k₀ = k'
      · subst h₁
        simp [mapErase, mapLookup, h₀]
      · simp [mapErase, mapLookup, h₀, h₁, ih]

theorem mapLookup_mapSet_self (k : κ) (v : α) (l : List (κ × α)) :
    mapLookup k (mapSet k v l) = some v := by
  induction l with
  | nil => simp [mapSet, mapLookup]
  | cons p rest ih =>
    obtain ⟨k', v'⟩ := p
    by_cases h : k' = k
    · simp [mapSet, mapLookup, h]
    · simp [mapSet, mapLookup, h, ih]

theorem mapLookup_mapSet_ne {k k' : κ} (h : k' ≠ k) (v : α) (l : List (κ × α)) :
    mapLookup k' (mapSet k v l) = mapLookup k' l := by
  induction l with
  | nil =>
    have h₁ : ¬(k = k') := fun hc => h hc.symm
    simp [mapSet, mapLookup, h₁]
  | cons p rest ih =>
    obtain ⟨k₀, v'⟩ := p
    by_cases h₀ : k₀ = k
    · subst h₀
      have h₁ : ¬(k₀ = k') := fun hc => h hc.symm
      simp [mapSet, mapLookup, h₁]
    · by_cases h₁ : k₀ = k'
      · subst h₁
        simp [mapSet, mapLookup, h₀]
      · simp [mapSet, mapLookup, h₀, h₁, ih]

theorem keys_mapSet_mem {k : κ} {v : α} {l : List (κ × α)} {a : κ}
    (ha : a ∈ (mapSet k v l).map Prod.fst) : a ∈ l.map Prod.fst ∨ a = k := by
  induction l with
  | nil =>
    simp [mapSet] at ha
    exact Or.inr ha
  | cons p rest ih =>
    obtain ⟨k', v'⟩ := p
    by_cases h : k' = k
    · subst h
      have heq : mapSet k' v ((k', v') :: rest) = (k', v) :: rest := by
        simp [mapSet]
      rw [heq, List.map_cons] at ha
      rcases List.mem_cons.1 ha with h₁ | h₁
      · exact Or.inr h₁
      · exact Or.inl (List.mem_cons_of_mem _ h₁)
    · have heq : mapSet k v ((k', v') :: rest) = (k', v') :: mapSet k v rest := by
        simp [mapSet, h]
      rw [heq, List.map_cons] at ha
      rcases List.mem_cons.1 ha with h₁ | h₁
      · exact Or.inl (by simp [h₁])
      · rcases ih h₁ with hx | hx
        · exact Or.inl (List.mem_cons_of_mem _ hx)
        · exact Or.inr hx

theorem keys_mapSet_nodup {k : κ} {v : α} {l : List (κ × α)}
    (hnd : (l.map Prod.fst).Nodup) : ((mapSet k v l).map Prod.fst).Nodup := by
  induction l with
  | nil => simp [mapSet]
  | cons p rest ih =>
    obtain ⟨k', v'⟩ := p
    simp only [List.map_cons, List.nodup_cons] at hnd
    by_cases h : k' = k
    · subst h
      have heq : mapSet k' v ((k', v') :: rest) = (k', v) :: rest := by
        simp [mapSet]
      rw [heq, List.map_cons, List.nodup_cons]
      exact hnd
    · have heq : mapSet k v ((k', v') :: rest) = (k', v') :: mapSet k v rest := by
        simp [mapSet, h]
      rw [heq, List.map_cons, List.nodup_cons]
      refine ⟨?_, ih hnd.2⟩
      intro hc
      rcases keys_mapSet_mem hc with hx | hx
      · exact hnd.1 hx
      · exact h hx

theorem mapModify_of_lookup_none {k : κ} {l : List (κ × α)}
    (h : mapLookup k l = none) (f : α → α) : mapModify k f l = l := by
  induction l with
  | nil => simp [mapModify]
  | cons p rest ih =>
    obtain ⟨k', v⟩ := p
    by_cases hk : k' = k
    · subst hk
      simp [mapLookup] at h
    · simp [mapLookup, hk] at h
      simp [mapModify, hk, ih h]

theorem mapModify_append_fresh {k : κ} {l : List (κ × α)}
    (h : mapLookup k l = none) (v : α) (f : α → α) :
    mapModify k f (l ++ [(k, v)]) = l ++ [(k, f v)] := by
  induction l with
  | nil => simp [mapModify]
  | cons p rest ih =>
    obtain ⟨k', v'⟩ := p
    by_cases hk : k' = k
    · subst hk
      simp [mapLookup] at h
    · simp [mapLookup, hk] at h
      simp [mapModify, hk, ih h]

theorem mapLookup_append_fresh {k : κ} {l : List (κ × α)}
    (h : mapLookup k l = none) (v : α) :
    mapLookup k (l ++ [(k, v)]) = some v := by
  induction l with
  | nil => simp [mapLookup]
  | cons p rest ih =>
    obtain ⟨k', v'⟩ := p
    by_cases hk : k' = k
    · subst hk
      simp [mapLookup] at h
    · simp [mapLookup, hk] at h
      simp [mapLookup, hk, ih h]

theorem mapLookup_append_ne {k k' : κ} (h : k' ≠ k) (l : List (κ × α)) (v : α) :
    mapLookup k' (l ++ [(k, v)]) = mapLookup k' l := by
  induction l with
  | nil =>
    have h₁ : ¬(k = k') := fun hc => h hc.symm
    simp [mapLookup, h₁]
  | cons p rest ih =>
    obtain ⟨k₀, v'⟩ := p
    by_cases h₀ : k₀ = k'
    · subst h₀
      simp [mapLookup]
    · simp [mapLookup, h₀, ih]

theorem mapErase_append_fresh {k : κ} {l : List (κ × α)}
    (h : mapLookup k l = none) (v : α) :
    mapErase k (l ++ [(k, v)]) = l := by
  induction l with
  | nil => simp [mapErase]
  | cons p rest ih =>
    obtain ⟨k', v'⟩ := p
    by_cases hk : k' = k
    · subst hk
      simp [mapLookup] at h
    · simp [mapLookup, hk] at h
      simp [mapErase, hk, ih h]

theorem mapErase_mapModify (k : κ) (f : α → α) (l : List (κ × α)) :
    mapErase k (mapModify k f l) = mapErase k l := by
  induction l with
  | nil => simp [mapModify, mapErase]
  | cons p rest ih =>
    obtain ⟨k', v⟩ := p
    by_cases h : k' = k
    · simp [mapModify, mapErase, h]
    · simp [mapModify, mapErase, h, ih]

end MapLemmas

/-! ## Source addresses and gateways -/

/-- A content-address (src/src/monitor/util.ts, via the spec §3): an origin
(`ipfs`, `bzzr0`, `bzzr1`) together with the hash in that origin's encoding. -/
structure SourceAddress where
  origin : String
  id : String
deriving DecidableEq, Repr

/-- Modelled from the spec: `SourceAddress.getUniqueIdentifier` lives in
src/src/monitor/util.ts, which is not part of this tree; §3 of the spec
defines the unique identifier as `origin || ":" || id`. -/
def SourceAddress.getUniqueIdentifier (sa : SourceAddress) : String :=
  sa.origin ++ ":" ++ sa.id

/-- Modelled from the spec: the `SimpleGateway` class lives in
src/src/monitor/gateway.ts, which is not part of this tree; §4.A of the spec
describes it as parameterized by a set of accepted origins and a URL base,
with `createUrl` being string concatenation. -/
structure SimpleGateway where
  origins : List String
  baseUrl : String
deriving DecidableEq, Repr

def SimpleGateway.worksWith (g : SimpleGateway) (origin : String) : Bool :=
  g.origins.contains origin

def SimpleGateway.createUrl (g : SimpleGateway) (id : String) : String :=
  g.baseUrl ++ id

/-- The registered gateway set of source-fetcher.ts (lines 43-47), with the
default IPFS URL (the `IPFS_URL` environment override is out of scope). -/
def gateways : List SimpleGateway :=
  [ { origins := ["ipfs"], baseUrl := "https://ipfs.infura.io:5001/api/v0/cat?arg=" },
    { origins := ["bzzr0", "bzzr1"], baseUrl := "https://swarm-gateways.net/bzz-raw:/" } ]

/-- `SourceFetcher.findGateway` (source-fetcher.ts lines 106-114): first
gateway accepting the origin wins; none found throws. -/
def findGateway (sa : SourceAddress) : Except String SimpleGateway :=
  match gateways.find? (fun g => g.worksWith sa.origin) with
  | some g => Except.ok g
  | none => Except.error ("Gateway not found for " ++ sa.origin)

/-! ## SourceFetcher state

Callbacks are represented by the natural number allocated at their
registration (`nextCallbackId`), and each `Subscription` object carries the
natural number allocated at its creation (`sid`), standing for the
JavaScript object identity that the completion handlers capture. -/

/-- The `Subscription` class of source-fetcher.ts (lines 12-22). -/
structure Subscription where
  sourceAddress : SourceAddress
  fetchUrl : String
  beingProcessed : Bool
  subscribers : List Nat
  sid : Nat
deriving DecidableEq, Repr

/-- The mutable fields of the `SourceFetcher` class (lines 33-37), plus the
two freshness counters of the embedding. -/
structure FetcherState where
  subscriptions : List (String × Subscription)
  timestamps : List (String × Nat)
  fileCounter : Int
  subscriptionCounter : Int
  nextCallbackId : Nat
  nextSid : Nat
deriving DecidableEq, Repr

def initFetcher : FetcherState :=
  { subscriptions := [], timestamps := [], fileCounter := 0,
    subscriptionCounter := 0, nextCallbackId := 0, nextSid := 0 }

/-- `SourceFetcher.shouldCleanup` (lines 161-164): the timestamp exists and
`timestamp + cleanupTime < now`. -/
def shouldCleanup (fs : FetcherState) (sourceHash : String)
    (now cleanupTime : Nat) : Bool :=
  match mapLookup sourceHash fs.timestamps with
  | none => false
  | some t => decide (t + cleanupTime < now)

/-- `SourceFetcher.cleanup` (lines 150-159): delete the timestamp, count the
subscribers (the source takes `Object.keys` of the subscriber array, whose
length equals the array's length), delete the subscription, and adjust both
counters.  All call sites in the source guard that the subscription exists;
the `none` branch is unreachable there. -/
def cleanup (fs : FetcherState) (sourceHash : String) : FetcherState :=
  let delta : Int :=
    match mapLookup sourceHash fs.subscriptions with
    | some sub => sub.subscribers.length
    | none => 0
  { fs with
    timestamps := mapErase sourceHash fs.timestamps,
    subscriptions := mapErase sourceHash fs.subscriptions,
    fileCounter := fs.fileCounter - 1,
    subscriptionCounter := fs.subscriptionCounter - delta }

/-- `SourceFetcher.notifySubscribers` (lines 116-131): bail out if the hash
is no longer subscribed; otherwise remove the subscription via `cleanup`
first, then invoke every registered callback with the fetched file.  The
returned list records the invocations (callback identity, file) in order. -/
def notifySubscribers (fs : FetcherState) (id file : String) :
    FetcherState × List (Nat × String) :=
  match mapLookup id fs.subscriptions with
  | none => (fs, [])
  | some subscription =>
    let fs' := cleanup fs id
    (fs', subscription.subscribers.map (fun c => (c, file)))

/-- The upsert body of `SourceFetcher.subscribe` (lines 138-147): create the
subscription if the hash is new (counting a pending file), refresh the
timestamp, push the callback, and count the subscription. -/
def subscribeUpsert (fs : FetcherState) (sa : SourceAddress) (fetchUrl : String)
    (now : Nat) : FetcherState :=
  let sourceHash := sa.getUniqueIdentifier
  let fs1 :=
    if (mapLookup sourceHash fs.subscriptions).isNone then
      { fs with
        subscriptions := fs.subscriptions ++
          [(sourceHash,
            { sourceAddress := sa, fetchUrl := fetchUrl, beingProcessed := false,
              subscribers := [], sid := fs.nextSid })],
        nextSid := fs.nextSid + 1,
        fileCounter := fs.fileCounter + 1 }
    else fs
  { fs1 with
    timestamps := mapSet sourceHash now fs1.timestamps,
    subscriptions := mapModify sourceHash
      (fun sub => { sub with subscribers := sub.subscribers ++ [fs1.nextCallbackId] })
      fs1.subscriptions,
    nextCallbackId := fs1.nextCallbackId + 1,
    subscriptionCounter := fs1.subscriptionCounter + 1 }

namespace SourceFetcher

/-- `SourceFetcher.subscribe` (lines 133-148): derive the unique identifier,
resolve the gateway (throwing before any mutation when none is registered
for the origin), build the fetch URL, then upsert.  The returned pair is
the state after the call and the thrown message, if any. -/
def subscribe (fs : FetcherState) (sa : SourceAddress) (now : Nat) :
    FetcherState × Option String :=
  match findGateway sa with
  | Except.error e => (fs, some e)
  | Except.ok gateway => (subscribeUpsert fs sa (gateway.createUrl sa.id) now, none)

end SourceFetcher

/-- Setting `beingProcessed` on the live map entry (fetch loop, line 80). -/
def setBeingProcessed (fs : FetcherState) (sourceHash : String) (b : Bool) :
    FetcherState :=
  { fs with
    subscriptions :=
      mapModify sourceHash (fun sub => { sub with beingProcessed := b })
        fs.subscriptions }

/-- The `finally` handler of the fetch (line 100) writes `beingProcessed`
on the Subscription object captured at dispatch; if the map entry has been
replaced since, the write lands on the detached object and the map is
unaffected.  `sid` identifies the captured object. -/
def clearFlagIfSid (fs : FetcherState) (sourceHash : String) (sid : Nat) :
    FetcherState :=
  { fs with
    subscriptions :=
      mapModify sourceHash
        (fun sub => if sub.sid = sid then { sub with beingProcessed := false } else sub)
        fs.subscriptions }

/-- The synchronous part of one iteration of `SourceFetcher.fetch`
(lines 56-104).  `dispatched` is the request issued, if any, as
(hash, subscription identity, fetch URL); `next` is the argument pair of
the `setTimeout(this.fetch, ...)` rescheduling that every branch performs;
`fast` records whether the rescheduling used `NO_PAUSE` rather than
`fetchPause`. -/
structure FetchStepResult where
  state : FetcherState
  dispatched : Option (String × Nat × String)
  next : List String × Nat
  fast : Bool
deriving DecidableEq, Repr

def fetchStep (cleanupTime : Nat) (fs : FetcherState) (sourceHashes : List String)
    (index : Nat) (now : Nat) : FetchStepResult :=
  if index ≥ sourceHashes.length then
    { state := fs, dispatched := none,
      next := (fs.subscriptions.map Prod.fst, 0), fast := true }
  else
    let sourceHash := sourceHashes.getD index ""
    match mapLookup sourceHash fs.subscriptions with
    | none =>
      { state := fs, dispatched := none, next := (sourceHashes, index + 1), fast := true }
    | some subscription =>
      if subscription.beingProcessed then
        { state := fs, dispatched := none, next := (sourceHashes, index + 1), fast := true }
      else if shouldCleanup fs sourceHash now cleanupTime then
        { state := cleanup fs sourceHash, dispatched := none,
          next := (sourceHashes, index + 1), fast := true }
      else
        { state := setBeingProcessed fs sourceHash true,
          dispatched := some (sourceHash, subscription.sid, subscription.fetchUrl),
          next := (sourceHashes, index + 1), fast := false }

/-! ## Event-level semantics

The single-threaded JavaScript event loop serializes: calls to
`subscribe`, iterations of the fetch loop, settlements of dispatched
`nodeFetch` promises (whose `finally` clears the in-flight flag), and
completions of `resp.text()` (which run the status check and, on 200, the
notification).  `inFlight` holds the (hash, subscription identity) of every
dispatched request whose fetch promise has not yet settled; a `respond`
event not matching an in-flight request is ignored, since every settlement
belongs to exactly one dispatch. -/

inductive Event where
  | subscribe (sa : SourceAddress) (now : Nat)
  | visit (sourceHashes : List String) (index : Nat) (now : Nat)
  | respond (sourceHash : String) (sid : Nat)
  | bodyReady (sourceHash : String) (ok : Bool) (body : String)
deriving DecidableEq, Repr

structure SysState where
  fs : FetcherState
  inFlight : List (String × Nat)
deriving DecidableEq, Repr

def initSys : SysState := { fs := initFetcher, inFlight := [] }

def stepEv (cleanupTime : Nat) (s : SysState) :
    Event → SysState × List (Nat × String)
  | Event.subscribe sa now =>
    ({ s with fs := (SourceFetcher.subscribe s.fs sa now).1 }, [])
  | Event.visit sourceHashes index now =>
    let r := fetchStep cleanupTime s.fs sourceHashes index now
    ({ fs := r.state,
       inFlight :=
         match r.dispatched with
         | some (h, sid, _) => (h, sid) :: s.inFlight
         | none => s.inFlight }, [])
  | Event.respond sourceHash sid =>
    if (sourceHash, sid) ∈ s.inFlight then
      ({ fs := clearFlagIfSid s.fs sourceHash sid,
         inFlight := s.inFlight.erase (sourceHash, sid) }, [])
    else (s, [])
  | Event.bodyReady sourceHash ok body =>
    if ok then
      let p := notifySubscribers s.fs sourceHash body
      ({ s with fs := p.1 }, p.2)
    else (s, [])

def runEv (cleanupTime : Nat) (s : SysState) :
    List Event → SysState × List (Nat × String)
  | [] => (s, [])
  | e :: es =>
    let p := stepEv cleanupTime s e
    let q := runEv cleanupTime p.1 es
    (q.1, p.2 ++ q.2)

/-! ## ChainMonitor (src/src/monitor/monitor.ts) -/

/-- A transaction as `processBlock` sees it: its `to` field (`null` for a
creation) and the address `ethers.utils.getContractAddress` derives for it
(an external computation, carried as data). -/
structure Tx where
  toField : Option String
  createdAddress : String
deriving DecidableEq, Repr

/-- `createsContract` (monitor.ts lines 13-15): `!tx.to` under JavaScript
truthiness, so a missing `to` or an empty string both count. -/
def createsContract (tx : Tx) : Bool :=
  match tx.toField with
  | none => true
  | some s => s = ""

/-- What `web3.eth.getBlock(blockNumber, true)` produced: a block with full
transactions, `null` (not yet mined), or a rejected promise. -/
inductive BlockResult where
  | found (txs : List Tx)
  | noBlock
  | failed
deriving DecidableEq, Repr

/-- One iteration of `ChainMonitor.processBlock` (monitor.ts lines 47-68):
for a block, schedule `processBytecode(address, initialGetBytecodeTries)`
for every creation transaction and advance the block number; otherwise
leave it unchanged.  The `finally` schedules exactly one next iteration
after `getBlockPause` with the returned block number; the scheduled
bytecode jobs are returned alongside. -/
def processBlock (blockNumber : Nat) (res : BlockResult)
    (initialGetBytecodeTries : Int) : Nat × List (String × Int) :=
  match res with
  | BlockResult.found txs =>
    (blockNumber + 1,
     (txs.filter createsContract).map
       (fun tx => (tx.createdAddress, initialGetBytecodeTries)))
  | BlockResult.noBlock => (blockNumber, [])
  | BlockResult.failed => (blockNumber, [])

/-- One `eth_getCode` outcome. -/
inductive CodeResult where
  | empty
  | code (bytecode : String)
  | rpcError
deriving DecidableEq, Repr

/-- `ChainMonitor.processBytecode` (monitor.ts lines 70-103), counting the
`eth_getCode` calls it issues against an oracle of successive RPC outcomes.
The guard `if (retriesLeft-- <= 0) return;` tests the incoming value and
post-decrements, so an empty result or an RPC error reschedules with the
count lowered by one; a non-empty bytecode stops the recursion. -/
def processBytecode (retriesLeft : Int) : List CodeResult → Nat
  | [] => if retriesLeft ≤ 0 then 0 else 1
  | r :: rest =>
    if retriesLeft ≤ 0 then 0
    else
      match r with
      | CodeResult.code _ => 1
      | CodeResult.empty => 1 + processBytecode (retriesLeft - 1) rest
      | CodeResult.rpcError => 1 + processBytecode (retriesLeft - 1) rest

/-! ## Injector verify-and-store (modelled from the spec)

The Injector's source (src/injector.ts of the verification service) is not
part of this tree; only its test suite (src/test/injector.js) is.  The
matcher and the verify-and-store path are modelled from spec §4.F, §4.G
and §6, with the recompilation treated as an oracle. -/

inductive MatchResult where
  | perfect
  | partialMatch
  | noMatch
deriving DecidableEq, Repr

/-- Modelled from the spec (§4.F): `strip` reads the last two bytes of a
bytecode big-endian as the CBOR metadata length, then drops those two
bytes plus the declared length; a malformed tail yields `none`. -/
def strip (b : List Nat) : Option (List Nat) :=
  if 2 ≤ b.length then
    let L := b.getD (b.length - 2) 0 * 256 + b.getD (b.length - 1) 0
    if 2 + L ≤ b.length then some (b.take (b.length - 2 - L)) else none
  else none

/-- Modelled from the spec (§4.F): the strongest of the two equality
relations that holds, with malformed tails rejected as `noMatch`. -/
def matchBytecodes (onchain recompiled : List Nat) : MatchResult :=
  if onchain = recompiled then MatchResult.perfect
  else
    match strip onchain, strip recompiled with
    | some a, some b =>
      if a = b then MatchResult.partialMatch else MatchResult.noMatch
    | _, _ => MatchResult.noMatch

/-- Modelled from the spec (§6, test/injector.js): a metadata document,
abstracted to the text surrounding its `settings.libraries` value and the
library links themselves, so that "substitute link addresses into
settings.libraries and re-serialize" is expressible. -/
structure Metadata where
  pre : String
  libraries : List (String × String)
  post : String
deriving DecidableEq, Repr

def renderLibraries : List (String × String) → String
  | [] => ""
  | (name, addr) :: rest =>
    "\"" ++ name ++ "\":\"" ++ addr ++ "\"" ++
      (if rest.isEmpty then "" else ",") ++ renderLibraries rest

def Metadata.serialize (m : Metadata) : String :=
  m.pre ++ renderLibraries m.libraries ++ m.post

/-- Modelled from the spec (§4.G step 2, test/injector.js lines 250-252):
`addLibraryLinksToMetadata` replaces `settings.libraries` with the caller's
link map, keyed by library name. -/
def addLibraryLinksToMetadata (links : List (String × String)) (m : Metadata) :
    Metadata :=
  { m with libraries := links }

/-- Modelled from the spec (§4.G verify-and-store, §6 repository layout):
link libraries if links were supplied, recompile (an oracle mapping the
metadata document to runtime bytecode), match against the on-chain
bytecode, and persist: a perfect match under `ipfs/<hash of metadata>`,
a partial match under `partial_matches/<chain>/<address>/metadata.json`,
and no match fails. -/
def inject (repository : List (String × String)) (chain address : String)
    (metadata : Metadata) (links : Option (List (String × String)))
    (onchain : List Nat) (recompile : Metadata → List Nat)
    (ipfsHashOf : String → String) :
    Except String (List (String × String) × MatchResult) :=
  let m :=
    match links with
    | some l => addLibraryLinksToMetadata l metadata
    | none => metadata
  let recompiled := recompile m
  match matchBytecodes onchain recompiled with
  | MatchResult.perfect =>
    Except.ok
      (mapSet ("ipfs/" ++ ipfsHashOf m.serialize) m.serialize repository,
       MatchResult.perfect)
  | MatchResult.partialMatch =>
    Except.ok
      (mapSet ("partial_matches/" ++ chain ++ "/" ++ address ++ "/metadata.json")
         m.serialize repository,
       MatchResult.partialMatch)
  | MatchResult.noMatch =>
    Except.error "Could not match on-chain deployed bytecode"

/-! ## Trace invariants of the fetcher -/

/-- Every callback identity registered across the subscription map. -/
def subIds (l : List (String × Subscription)) : List Nat :=
  (l.map (fun p => p.2.subscribers)).flatten

/-- The state invariant maintained by every event of the fetcher: key
distinctness of both maps, freshness and global distinctness of callback
identities, freshness of subscription identities, and the coupling between
each live subscription's `beingProcessed` flag and the in-flight request
dispatched on that subscription object's behalf. -/
structure Inv (s : SysState) : Prop where
  subKeysNodup : (s.fs.subscriptions.map Prod.fst).Nodup
  tsKeysNodup : (s.fs.timestamps.map Prod.fst).Nodup
  idsLt : ∀ c ∈ subIds s.fs.subscriptions, c < s.fs.nextCallbackId
  idsNodup : (subIds s.fs.subscriptions).Nodup
  sidLt : ∀ h sub, mapLookup h s.fs.subscriptions = some sub →
    sub.sid < s.fs.nextSid
  sidInj : ∀ h₁ h₂ sub₁ sub₂, mapLookup h₁ s.fs.subscriptions = some sub₁ →
    mapLookup h₂ s.fs.subscriptions = some sub₂ → sub₁.sid = sub₂.sid → h₁ = h₂
  inFlightSidLt : ∀ p ∈ s.inFlight, p.2 < s.fs.nextSid
  inFlightSidsNodup : (s.inFlight.map Prod.snd).Nodup
  flagIff : ∀ h sub, mapLookup h s.fs.subscriptions = some sub →
    (sub.beingProcessed = true ↔ (h, sub.sid) ∈ s.inFlight)
  sidShape : ∀ h sub, mapLookup h s.fs.subscriptions = some sub →
    ∀ q ∈ s.inFlight, q.2 = sub.sid → q.1 = h

/-- States the event semantics can reach from the initial fetcher state. -/
def Reachable (cleanupTime : Nat) (s : SysState) : Prop :=
  ∃ evs : List Event, (runEv cleanupTime initSys evs).1 = s

/-- A concrete subscription whose request is in flight, instantiating the
fetcher theorems below. -/
def busySub : Subscription :=
  { sourceAddress := { origin := "ipfs", id := "Qm1" }, fetchUrl := "u",
    beingProcessed := true, subscribers := [0], sid := 0 }

def busyFetcher : FetcherState :=
  { subscriptions := [("ipfs:Qm1", busySub)],
    timestamps := [("ipfs:Qm1", 0)],
    fileCounter := 1, subscriptionCounter := 1,
    nextCallbackId := 1, nextSid := 1 }

def busySys : SysState :=
  { fs := busyFetcher, inFlight := [("ipfs:Qm1", 0)] }

/-- An idle subscription as `subscribe` creates it from the default IPFS
gateway, instantiating the cleanup theorems below. -/
def idleSub : Subscription :=
  { sourceAddress := { origin := "ipfs", id := "Qm1" },
    fetchUrl := "https://ipfs.infura.io:5001/api/v0/cat?arg=Qm1",
    beingProcessed := false, subscribers := [0], sid := 0 }

def subOnlyTrace : List Event :=
  [Event.subscribe { origin := "ipfs", id := "Qm1" } 0]

def dispatchedTrace : List Event :=
  [Event.subscribe { origin := "ipfs", id := "Qm1" } 0,
   Event.visit ["ipfs:Qm1"] 0 1]

/-! ## Claim theorems: fetch loop, subscribe, monitor, injector -/

theorem subIds_cons (k : String) (v : Subscription)
    (rest : List (String × Subscription)) :
    subIds ((k, v) :: rest) = v.subscribers ++ subIds rest := by
  simp [subIds]

theorem subIds_append (l₁ l₂ : List (String × Subscription)) :
    subIds (l₁ ++ l₂) = subIds l₁ ++ subIds l₂ := by
  simp [subIds]

theorem mem_subIds_of_lookup {h : String} {sub : Subscription}
    {l : List (String × Subscription)} (hl : mapLookup h l = some sub)
    {c : Nat} (hc : c ∈ sub.subscribers) : c ∈ subIds l :=
  List.mem_flatten.mpr
    ⟨sub.subscribers, List.mem_map.mpr ⟨(h, sub), mapLookup_mem hl, rfl⟩, hc⟩

theorem flatten_sublist_of_sublist {α : Type} {l₁ l₂ : List (List α)}
    (h : l₁.Sublist l₂) : l₁.flatten.Sublist l₂.flatten := by
  induction h with
  | slnil => exact List.Sublist.refl _
  | cons x _ ih => exact ih.trans (List.sublist_append_right x _)
  | cons₂ x _ ih => exact ih.append_left x

theorem subIds_mapErase_sublist (h : String) (l : List (String × Subscription)) :
    (subIds (mapErase h l)).Sublist (subIds l) :=
  flatten_sublist_of_sublist ((mapErase_sublist h l).map _)

theorem mapErase_of_lookup_none {k : String} {l : List (String × Subscription)}
    (h : mapLookup k l = none) : mapErase k l = l := by
  induction l with
  | nil => simp [mapErase]
  | cons p rest ih =>
    obtain ⟨k', v⟩ := p
    by_cases hk : k' = k
    · subst hk
      simp [mapLookup] at h
    · simp [mapLookup, hk] at h
      simp [mapErase, hk, ih h]

theorem subIds_perm_erase {h : String} {sub : Subscription}
    {l : List (String × Subscription)} (hl : mapLookup h l = some sub) :
    (subIds l).Perm (sub.subscribers ++ subIds (mapErase h l)) := by
  induction l with
  | nil => simp [mapLookup] at hl
  | cons p rest ih =>
    obtain ⟨k, v⟩ := p
    by_cases hk : k = h
    · subst hk
      rw [mapLookup, if_pos rfl] at hl
      rw [mapErase, if_pos rfl, subIds_cons]
      cases hl
      exact List.Perm.refl _
    · rw [mapLookup, if_neg hk] at hl
      rw [mapErase, if_neg hk, subIds_cons, subIds_cons]
      exact ((ih hl).append_left v.subscribers).trans
        (List.perm_append_comm_assoc v.subscribers sub.subscribers
          (subIds (mapErase h rest)))

theorem subIds_mapModify_of_subscribers_eq (h : String)
    (f : Subscription → Subscription)
    (hf : ∀ x, (f x).subscribers = x.subscribers) (l : List (String × Subscription)) :
    subIds (mapModify h f l) = subIds l := by
  induction l with
  | nil => simp [mapModify]
  | cons p rest ih =>
    obtain ⟨k, v⟩ := p
    by_cases hk : k = h
    · rw [mapModify, if_pos hk, subIds_cons, subIds_cons, hf v]
    · rw [mapModify, if_neg hk, subIds_cons, subIds_cons, ih]

theorem subIds_mapModify_perm {h : String} {sub : Subscription}
    {l : List (String × Subscription)} (hl : mapLookup h l = some sub)
    (f : Subscription → Subscription) :
    (subIds (mapModify h f l)).Perm ((f sub).subscribers ++ subIds (mapErase h l)) := by
  have hl' : mapLookup h (mapModify h f l) = some (f sub) := by
    rw [mapLookup_mapModify_self, hl]
    rfl
  have := subIds_perm_erase hl'
  rwa [mapErase_mapModify] at this

theorem lookup_of_lookup_erase {κ α : Type} [DecidableEq κ]
    {l : List (κ × α)} (hnd : (l.map Prod.fst).Nodup) {h h' : κ} {v : α}
    (hv : mapLookup h' (mapErase h l) = some v) :
    mapLookup h' l = some v ∧ h' ≠ h := by
  by_cases he : h' = h
  · subst he
    rw [mapLookup_mapErase_self hnd] at hv
    cases hv
  · rw [mapLookup_mapErase_ne he] at hv
    exact ⟨hv, he⟩

theorem inv_cleanup {fs : FetcherState} {fl : List (String × Nat)}
    (hs : Inv ⟨fs, fl⟩) (h : String) : Inv ⟨cleanup fs h, fl⟩ := by
  refine ⟨?_, ?_, ?_, ?_, ?_, ?_, ?_, ?_, ?_, ?_⟩
  · exact (List.Sublist.map Prod.fst (mapErase_sublist h fs.subscriptions)).nodup
      hs.subKeysNodup
  · exact (List.Sublist.map Prod.fst (mapErase_sublist h fs.timestamps)).nodup
      hs.tsKeysNodup
  · intro c hc
    exact hs.idsLt c ((subIds_mapErase_sublist h fs.subscriptions).subset hc)
  · exact (subIds_mapErase_sublist h fs.subscriptions).nodup hs.idsNodup
  · intro h' sub' hl
    exact hs.sidLt h' sub' (lookup_of_lookup_erase hs.subKeysNodup hl).1
  · intro h₁ h₂ sub₁ sub₂ hl₁ hl₂ hsid
    exact hs.sidInj h₁ h₂ sub₁ sub₂
      (lookup_of_lookup_erase hs.subKeysNodup hl₁).1
      (lookup_of_lookup_erase hs.subKeysNodup hl₂).1 hsid
  · exact hs.inFlightSidLt
  · exact hs.inFlightSidsNodup
  · intro h' sub' hl
    exact hs.flagIff h' sub' (lookup_of_lookup_erase hs.subKeysNodup hl).1
  · intro h' sub' hl q hq hqe
    exact hs.sidShape h' sub' (lookup_of_lookup_erase hs.subKeysNodup hl).1 q hq hqe

theorem setBeingProcessed_lookup (fs : FetcherState) (h : String) (b : Bool)
    (h' : String) :
    mapLookup h' (setBeingProcessed fs h b).subscriptions =
      if h' = h then
        (mapLookup h fs.subscriptions).map (fun sub => { sub with beingProcessed := b })
      else mapLookup h' fs.subscriptions := by
  by_cases he : h' = h
  · subst he
    rw [if_pos rfl]
    exact mapLookup_mapModify_self _ _ _
  · rw [if_neg he]
    exact mapLookup_mapModify_ne he _ _

theorem inv_dispatch {fs : FetcherState} {fl : List (String × Nat)}
    (hs : Inv ⟨fs, fl⟩) {h : String} {sub : Subscription}
    (hsub : mapLookup h fs.subscriptions = some sub)
    (hflag : sub.beingProcessed = false) :
    Inv ⟨setBeingProcessed fs h true, (h, sub.sid) :: fl⟩ := by
  have hnotin : ∀ q ∈ fl, q.2 ≠ sub.sid := by
    intro q hq hqe
    have hq1 : q.1 = h := hs.sidShape h sub hsub q hq hqe
    have hmem : (h, sub.sid) ∈ fl := by
      have : q = (h, sub.sid) := by
        obtain ⟨q1, q2⟩ := q
        simp only at hq1 hqe
        rw [hq1, hqe]
      exact this ▸ hq
    have := (hs.flagIff h sub hsub).2 hmem
    rw [hflag] at this
    cases this
  have hlk := setBeingProcessed_lookup fs h true
  refine ⟨?_, ?_, ?_, ?_, ?_, ?_, ?_, ?_, ?_, ?_⟩
  · simpa only [setBeingProcessed, keys_mapModify] using hs.subKeysNodup
  · exact hs.tsKeysNodup
  · intro c hc
    rw [show (setBeingProcessed fs h true).subscriptions =
        mapModify h (fun s => { s with beingProcessed := true }) fs.subscriptions
        from rfl,
      subIds_mapModify_of_subscribers_eq h
        (fun s => { s with beingProcessed := true }) (fun x => rfl)
        fs.subscriptions] at hc
    exact hs.idsLt c hc
  · rw [show (setBeingProcessed fs h true).subscriptions =
        mapModify h (fun s => { s with beingProcessed := true }) fs.subscriptions
        from rfl,
      subIds_mapModify_of_subscribers_eq h
        (fun s => { s with beingProcessed := true }) (fun x => rfl)
        fs.subscriptions]
    exact hs.idsNodup
  · intro h' sub' hl
    rw [hlk h'] at hl
    by_cases he : h' = h
    · rw [if_pos he, hsub] at hl
      cases hl
      exact hs.sidLt h sub hsub
    · rw [if_neg he] at hl
      exact hs.sidLt h' sub' hl
  · intro h₁ h₂ sub₁ sub₂ hl₁ hl₂ hsid
    rw [hlk h₁] at hl₁
    rw [hlk h₂] at hl₂
    by_cases he₁ : h₁ = h <;> by_cases he₂ : h₂ = h
    · rw [he₁, he₂]
    · rw [if_pos he₁, hsub] at hl₁
      rw [if_neg he₂] at hl₂
      cases hl₁
      exact absurd (hs.sidInj h h₂ sub sub₂ hsub hl₂ hsid).symm he₂
    · rw [if_neg he₁] at hl₁
      rw [if_pos he₂, hsub] at hl₂
      cases hl₂
      exact absurd (hs.sidInj h₁ h sub₁ sub hl₁ hsub hsid) he₁
    · rw [if_neg he₁] at hl₁
      rw [if_neg he₂] at hl₂
      exact hs.sidInj h₁ h₂ sub₁ sub₂ hl₁ hl₂ hsid
  · intro q hq
    rcases List.mem_cons.1 hq with hq | hq
    · subst hq
      exact hs.sidLt h sub hsub
    · exact hs.inFlightSidLt q hq
  · rw [List.map_cons]
    refine List.nodup_cons.2 ⟨?_, hs.inFlightSidsNodup⟩
    intro hc
    rcases List.mem_map.1 hc with ⟨q, hq, hqe⟩
    exact hnotin q hq hqe
  · intro h' sub' hl
    rw [hlk h'] at hl
    by_cases he : h' = h
    · subst he
      rw [if_pos rfl, hsub] at hl
      cases hl
      simp
    · rw [if_neg he] at hl
      rw [List.mem_cons]
      constructor
      · intro hf
        exact Or.inr ((hs.flagIff h' sub' hl).1 hf)
      · intro hm
        rcases hm with hm | hm
        · have hsid : sub'.sid = sub.sid := congrArg Prod.snd hm
          exact absurd (hs.sidInj h' h sub' sub hl hsub hsid) he
        · exact (hs.flagIff h' sub' hl).2 hm
  · intro h' sub' hl q hq hqe
    rw [hlk h'] at hl
    rcases List.mem_cons.1 hq with hq | hq
    · by_cases he : h' = h
      · rw [hq, he]
      · rw [if_neg he] at hl
        have hsid : sub'.sid = sub.sid := by
          rw [← hqe, hq]
        exact absurd (hs.sidInj h' h sub' sub hl hsub hsid) he
    · by_cases he : h' = h
      · have hsid : sub'.sid = sub.sid := by
          rw [if_pos he, hsub] at hl
          cases hl
          rfl
        rw [he]
        exact hs.sidShape h sub hsub q hq (hqe.trans hsid)
      · rw [if_neg he] at hl
        exact hs.sidShape h' sub' hl q hq hqe

theorem clearFlagIfSid_lookup (fs : FetcherState) (h : String) (sid : Nat)
    (h' : String) :
    mapLookup h' (clearFlagIfSid fs h sid).subscriptions =
      if h' = h then
        (mapLookup h fs.subscriptions).map
          (fun sub => if sub.sid = sid then { sub with beingProcessed := false } else sub)
      else mapLookup h' fs.subscriptions := by
  by_cases he : h' = h
  · subst he
    rw [if_pos rfl]
    exact mapLookup_mapModify_self _ _ _
  · rw [if_neg he]
    exact mapLookup_mapModify_ne he _ _

theorem inv_respond {fs : FetcherState} {fl : List (String × Nat)}
    (hs : Inv ⟨fs, fl⟩) {h : String} {sid : Nat} (_hin : (h, sid) ∈ fl) :
    Inv ⟨clearFlagIfSid fs h sid, fl.erase (h, sid)⟩ := by
  have hf : ∀ x : Subscription,
      (if x.sid = sid then { x with beingProcessed := false } else x).subscribers =
        x.subscribers := by
    intro x
    by_cases hx : x.sid = sid
    · rw [if_pos hx]
    · rw [if_neg hx]
  have hfsid : ∀ x : Subscription,
      (if x.sid = sid then { x with beingProcessed := false } else x).sid = x.sid := by
    intro x
    by_cases hx : x.sid = sid
    · rw [if_pos hx]
    · rw [if_neg hx]
  have hlk := clearFlagIfSid_lookup fs h sid
  have hflNodup : fl.Nodup := List.Nodup.of_map Prod.snd hs.inFlightSidsNodup
  have herase : (fl.erase (h, sid)).Sublist fl := List.erase_sublist _ _
  have htrans : ∀ h' sub',
      mapLookup h' (clearFlagIfSid fs h sid).subscriptions = some sub' →
      ∃ sub₀, mapLookup h' fs.subscriptions = some sub₀ ∧
        sub'.sid = sub₀.sid ∧ sub'.subscribers = sub₀.subscribers := by
    intro h' sub' hl
    rw [hlk h'] at hl
    by_cases he : h' = h
    · rw [if_pos he] at hl
      cases hx : mapLookup h fs.subscriptions with
      | none =>
        rw [hx] at hl
        cases hl
      | some sub₀ =>
        rw [hx] at hl
        cases hl
        exact ⟨sub₀, by rw [he]; exact hx, hfsid sub₀, hf sub₀⟩
    · rw [if_neg he] at hl
      exact ⟨sub', hl, rfl, rfl⟩
  refine ⟨?_, ?_, ?_, ?_, ?_, ?_, ?_, ?_, ?_, ?_⟩
  · simpa only [clearFlagIfSid, keys_mapModify] using hs.subKeysNodup
  · exact hs.tsKeysNodup
  · intro c hc
    rw [show (clearFlagIfSid fs h sid).subscriptions =
        mapModify h
          (fun sub => if sub.sid = sid then { sub with beingProcessed := false } else sub)
          fs.subscriptions from rfl,
      subIds_mapModify_of_subscribers_eq h
        (fun sub => if sub.sid = sid then { sub with beingProcessed := false } else sub)
        hf fs.subscriptions] at hc
    exact hs.idsLt c hc
  · rw [show (clearFlagIfSid fs h sid).subscriptions =
        mapModify h
          (fun sub => if sub.sid = sid then { sub with beingProcessed := false } else sub)
          fs.subscriptions from rfl,
      subIds_mapModify_of_subscribers_eq h
        (fun sub => if sub.sid = sid then { sub with beingProcessed := false } else sub)
        hf fs.subscriptions]
    exact hs.idsNodup
  · intro h' sub' hl
    obtain ⟨sub₀, hl₀, hsid, _⟩ := htrans h' sub' hl
    rw [hsid]
    exact hs.sidLt h' sub₀ hl₀
  · intro h₁ h₂ sub₁ sub₂ hl₁ hl₂ hsid
    obtain ⟨sub₁', hl₁', hsid₁, _⟩ := htrans h₁ sub₁ hl₁
    obtain ⟨sub₂', hl₂', hsid₂, _⟩ := htrans h₂ sub₂ hl₂
    exact hs.sidInj h₁ h₂ sub₁' sub₂' hl₁' hl₂' (by rw [← hsid₁, ← hsid₂, hsid])
  · intro q hq
    exact hs.inFlightSidLt q (herase.subset hq)
  · exact (herase.map Prod.snd).nodup hs.inFlightSidsNodup
  · intro h' sub' hl
    rw [hlk h'] at hl
    by_cases he : h' = h
    · rw [if_pos he] at hl
      cases hx : mapLookup h fs.subscriptions with
      | none =>
        rw [hx] at hl
        cases hl
      | some sub₀ =>
        rw [hx, Option.map_some'] at hl
        by_cases hss : sub₀.sid = sid
        · rw [if_pos hss] at hl
          have hinj := Option.some.inj hl
          subst hinj
          refine iff_of_false (by simp) ?_
          intro hmem
          simp only [he, hss] at hmem
          exact ((hflNodup.mem_erase_iff).1 hmem).1 rfl
        · rw [if_neg hss] at hl
          have hinj := Option.some.inj hl
          subst hinj
          have hne : (h', sub₀.sid) ≠ (h, sid) := by
            intro hc
            exact hss (congrArg Prod.snd hc)
          rw [List.mem_erase_of_ne hne]
          have := hs.flagIff h sub₀ hx
          rw [he]
          exact this
    · rw [if_neg he] at hl
      have hne : (h', sub'.sid) ≠ (h, sid) := by
        intro hc
        exact he (congrArg Prod.fst hc)
      rw [List.mem_erase_of_ne hne]
      exact hs.flagIff h' sub' hl
  · intro h' sub' hl q hq hqe
    obtain ⟨sub₀, hl₀, hsid, _⟩ := htrans h' sub' hl
    exact hs.sidShape h' sub₀ hl₀ q (herase.subset hq) (hqe.trans hsid)

theorem subscribeUpsert_fresh {fs : FetcherState} {sa : SourceAddress}
    {url : String} {now : Nat}
    (hnone : mapLookup sa.getUniqueIdentifier fs.subscriptions = none) :
    subscribeUpsert fs sa url now =
      { subscriptions := fs.subscriptions ++
          [(sa.getUniqueIdentifier,
            { sourceAddress := sa, fetchUrl := url, beingProcessed := false,
              subscribers := [fs.nextCallbackId], sid := fs.nextSid })],
        timestamps := mapSet sa.getUniqueIdentifier now fs.timestamps,
        fileCounter := fs.fileCounter + 1,
        subscriptionCounter := fs.subscriptionCounter + 1,
        nextCallbackId := fs.nextCallbackId + 1,
        nextSid := fs.nextSid + 1 } := by
  simp only [subscribeUpsert, hnone, Option.isNone_none, if_pos]
  rw [mapModify_append_fresh hnone]
  rfl

theorem subscribeUpsert_existing {fs : FetcherState} {sa : SourceAddress}
    {url : String} {now : Nat} {sub : Subscription}
    (hsub : mapLookup sa.getUniqueIdentifier fs.subscriptions = some sub) :
    subscribeUpsert fs sa url now =
      { fs with
        subscriptions := mapModify sa.getUniqueIdentifier
          (fun s => { s with subscribers := s.subscribers ++ [fs.nextCallbackId] })
          fs.subscriptions,
        timestamps := mapSet sa.getUniqueIdentifier now fs.timestamps,
        nextCallbackId := fs.nextCallbackId + 1,
        subscriptionCounter := fs.subscriptionCounter + 1 } := by
  have hisNone : (mapLookup sa.getUniqueIdentifier fs.subscriptions).isNone = false := by
    rw [hsub]
    rfl
  simp only [subscribeUpsert, hisNone, Bool.false_eq_true, if_neg, not_false_iff]

theorem subIds_append_fresh (l : List (String × Subscription)) (h : String)
    (v : Subscription) : subIds (l ++ [(h, v)]) = subIds l ++ v.subscribers := by
  rw [subIds_append]
  simp [subIds]

theorem keys_append_fresh_nodup {l : List (String × Subscription)} {h : String}
    (hnone : mapLookup h l = none) (hnd : (l.map Prod.fst).Nodup)
    (v : Subscription) : ((l ++ [(h, v)]).map Prod.fst).Nodup := by
  rw [List.map_append]
  simp only [List.map_cons, List.map_nil]
  rw [List.Perm.nodup_iff (List.perm_append_singleton h (l.map Prod.fst))]
  exact List.nodup_cons.mpr ⟨mapLookup_eq_none.1 hnone, hnd⟩

theorem inv_subscribeUpsert {fs : FetcherState} {fl : List (String × Nat)}
    (hs : Inv ⟨fs, fl⟩) (sa : SourceAddress) (url : String) (now : Nat) :
    Inv ⟨subscribeUpsert fs sa url now, fl⟩ := by
  cases hx : mapLookup sa.getUniqueIdentifier fs.subscriptions with
  | none =>
    rw [subscribeUpsert_fresh hx]
    have hlk : ∀ h', mapLookup h' (fs.subscriptions ++
        [(sa.getUniqueIdentifier,
          { sourceAddress := sa, fetchUrl := url, beingProcessed := false,
            subscribers := [fs.nextCallbackId], sid := fs.nextSid })]) =
        if h' = sa.getUniqueIdentifier then
          some { sourceAddress := sa, fetchUrl := url, beingProcessed := false,
                 subscribers := [fs.nextCallbackId], sid := fs.nextSid }
        else mapLookup h' fs.subscriptions := by
      intro h'
      by_cases he : h' = sa.getUniqueIdentifier
      · subst he
        rw [if_pos rfl]
        exact mapLookup_append_fresh hx _
      · rw [if_neg he]
        exact mapLookup_append_ne he _ _
    have hids := subIds_append_fresh fs.subscriptions sa.getUniqueIdentifier
      { sourceAddress := sa, fetchUrl := url, beingProcessed := false,
        subscribers := [fs.nextCallbackId], sid := fs.nextSid }
    have hcidNew : fs.nextCallbackId ∉ subIds fs.subscriptions := by
      intro hc
      exact absurd (hs.idsLt _ hc) (lt_irrefl _)
    refine ⟨?_, ?_, ?_, ?_, ?_, ?_, ?_, ?_, ?_, ?_⟩
    · exact keys_append_fresh_nodup hx hs.subKeysNodup _
    · exact keys_mapSet_nodup hs.tsKeysNodup
    · intro c hc
      rw [hids] at hc
      rcases List.mem_append.1 hc with hc | hc
      · exact Nat.lt_succ_of_lt (hs.idsLt c hc)
      · rcases List.mem_singleton.1 hc with rfl
        exact Nat.lt_succ_self _
    · rw [hids]
      rw [List.Perm.nodup_iff
        (List.perm_append_singleton fs.nextCallbackId (subIds fs.subscriptions))]
      exact List.nodup_cons.mpr ⟨hcidNew, hs.idsNodup⟩
    · intro h' sub' hl
      rw [hlk h'] at hl
      by_cases he : h' = sa.getUniqueIdentifier
      · rw [if_pos he] at hl
        cases hl
        exact Nat.lt_succ_self _
      · rw [if_neg he] at hl
        exact Nat.lt_succ_of_lt (hs.sidLt h' sub' hl)
    · intro h₁ h₂ sub₁ sub₂ hl₁ hl₂ hsid
      rw [hlk h₁] at hl₁
      rw [hlk h₂] at hl₂
      by_cases he₁ : h₁ = sa.getUniqueIdentifier <;>
        by_cases he₂ : h₂ = sa.getUniqueIdentifier
      · rw [he₁, he₂]
      · rw [if_pos he₁] at hl₁
        rw [if_neg he₂] at hl₂
        cases hl₁
        exact absurd (hsid ▸ hs.sidLt h₂ sub₂ hl₂) (lt_irrefl _)
      · rw [if_neg he₁] at hl₁
        rw [if_pos he₂] at hl₂
        cases hl₂
        exact absurd (hsid ▸ hs.sidLt h₁ sub₁ hl₁) (lt_irrefl _)
      · rw [if_neg he₁] at hl₁
        rw [if_neg he₂] at hl₂
        exact hs.sidInj h₁ h₂ sub₁ sub₂ hl₁ hl₂ hsid
    · intro q hq
      exact Nat.lt_succ_of_lt (hs.inFlightSidLt q hq)
    · exact hs.inFlightSidsNodup
    · intro h' sub' hl
      rw [hlk h'] at hl
      by_cases he : h' = sa.getUniqueIdentifier
      · rw [if_pos he] at hl
        cases hl
        refine iff_of_false (by simp) ?_
        intro hmem
        exact absurd (hs.inFlightSidLt _ hmem) (lt_irrefl _)
      · rw [if_neg he] at hl
        exact hs.flagIff h' sub' hl
    · intro h' sub' hl q hq hqe
      rw [hlk h'] at hl
      by_cases he : h' = sa.getUniqueIdentifier
      · rw [if_pos he] at hl
        cases hl
        exact absurd (hqe ▸ hs.inFlightSidLt q hq) (lt_irrefl _)
      · rw [if_neg he] at hl
        exact hs.sidShape h' sub' hl q hq hqe
  | some sub =>
    rw [subscribeUpsert_existing hx]
    have hlk : ∀ h', mapLookup h'
        (mapModify sa.getUniqueIdentifier
          (fun s => { s with subscribers := s.subscribers ++ [fs.nextCallbackId] })
          fs.subscriptions) =
        if h' = sa.getUniqueIdentifier then
          some { sub with subscribers := sub.subscribers ++ [fs.nextCallbackId] }
        else mapLookup h' fs.subscriptions := by
      intro h'
      by_cases he : h' = sa.getUniqueIdentifier
      · subst he
        rw [if_pos rfl, mapLookup_mapModify_self, hx]
        rfl
      · rw [if_neg he]
        exact mapLookup_mapModify_ne he _ _
    have hE := subIds_perm_erase hx
    have hM := subIds_mapModify_perm hx
      (fun s => { s with subscribers := s.subscribers ++ [fs.nextCallbackId] })
    have hcidNew : fs.nextCallbackId ∉ subIds fs.subscriptions := by
      intro hc
      exact absurd (hs.idsLt _ hc) (lt_irrefl _)
    have hmemchar : ∀ c, c ∈ subIds (mapModify sa.getUniqueIdentifier
        (fun s => { s with subscribers := s.subscribers ++ [fs.nextCallbackId] })
        fs.subscriptions) →
        c ∈ subIds fs.subscriptions ∨ c = fs.nextCallbackId := by
      intro c hc
      have hc2 := hM.subset hc
      rcases List.mem_append.1 hc2 with hc2 | hc2
      · rcases List.mem_append.1 hc2 with hc2 | hc2
        · exact Or.inl (hE.symm.subset (List.mem_append.2 (Or.inl hc2)))
        · exact Or.inr (List.mem_singleton.1 hc2)
      · exact Or.inl (hE.symm.subset (List.mem_append.2 (Or.inr hc2)))
    have htrans : ∀ h' sub', mapLookup h' (mapModify sa.getUniqueIdentifier
        (fun s => { s with subscribers := s.subscribers ++ [fs.nextCallbackId] })
        fs.subscriptions) = some sub' →
        ∃ sub₀, mapLookup h' fs.subscriptions = some sub₀ ∧
          sub'.sid = sub₀.sid ∧ sub'.beingProcessed = sub₀.beingProcessed := by
      intro h' sub' hl
      rw [hlk h'] at hl
      by_cases he : h' = sa.getUniqueIdentifier
      · rw [if_pos he] at hl
        have hinj := Option.some.inj hl
        subst hinj
        exact ⟨sub, by rw [he]; exact hx, rfl, rfl⟩
      · rw [if_neg he] at hl
        exact ⟨sub', hl, rfl, rfl⟩
    refine ⟨?_, ?_, ?_, ?_, ?_, ?_, ?_, ?_, ?_, ?_⟩
    · rw [keys_mapModify]
      exact hs.subKeysNodup
    · exact keys_mapSet_nodup hs.tsKeysNodup
    · intro c hc
      rcases hmemchar c hc with hc | hc
      · exact Nat.lt_succ_of_lt (hs.idsLt c hc)
      · rw [hc]
        exact Nat.lt_succ_self _
    · rw [List.Perm.nodup_iff hM]
      rw [List.append_assoc, List.singleton_append]
      rw [List.Perm.nodup_iff List.perm_middle]
      refine List.nodup_cons.mpr ⟨?_, ?_⟩
      · intro hc
        exact hcidNew (hE.symm.subset hc)
      · exact (List.Perm.nodup_iff hE).1 hs.idsNodup
    · intro h' sub' hl
      obtain ⟨sub₀, hl₀, hsid, _⟩ := htrans h' sub' hl
      rw [hsid]
      exact hs.sidLt h' sub₀ hl₀
    · intro h₁ h₂ sub₁ sub₂ hl₁ hl₂ hsid
      obtain ⟨sub₁', hl₁', hsid₁, _⟩ := htrans h₁ sub₁ hl₁
      obtain ⟨sub₂', hl₂', hsid₂, _⟩ := htrans h₂ sub₂ hl₂
      exact hs.sidInj h₁ h₂ sub₁' sub₂' hl₁' hl₂' (by rw [← hsid₁, ← hsid₂, hsid])
    · exact hs.inFlightSidLt
    · exact hs.inFlightSidsNodup
    · intro h' sub' hl
      obtain ⟨sub₀, hl₀, hsid, hflag⟩ := htrans h' sub' hl
      rw [hflag, hsid]
      exact hs.flagIff h' sub₀ hl₀
    · intro h' sub' hl q hq hqe
      obtain ⟨sub₀, hl₀, hsid, _⟩ := htrans h' sub' hl
      exact hs.sidShape h' sub₀ hl₀ q hq (hqe.trans hsid)

theorem inv_subscribe {fs : FetcherState} {fl : List (String × Nat)}
    (hs : Inv ⟨fs, fl⟩) (sa : SourceAddress) (now : Nat) :
    Inv ⟨(SourceFetcher.subscribe fs sa now).1, fl⟩ := by
  cases hg : findGateway sa with
  | error e => simpa [SourceFetcher.subscribe, hg] using hs
  | ok g =>
    have heq : (SourceFetcher.subscribe fs sa now).1 =
        subscribeUpsert fs sa (g.createUrl sa.id) now := by
      simp [SourceFetcher.subscribe, hg]
    rw [heq]
    exact inv_subscribeUpsert hs sa _ now

/-- Every branch of one fetch-loop iteration: untouched state with nothing
dispatched, a cleanup of the visited hash, or a dispatch marking the
visited subscription as being processed. -/
theorem fetchStep_cases (ct : Nat) (fs : FetcherState) (hashes : List String)
    (index now : Nat) :
    ((fetchStep ct fs hashes index now).state = fs ∧
      (fetchStep ct fs hashes index now).dispatched = none) ∨
    (∃ h sub, mapLookup h fs.subscriptions = some sub ∧
      sub.beingProcessed = false ∧ shouldCleanup fs h now ct = true ∧
      (fetchStep ct fs hashes index now).state = cleanup fs h ∧
      (fetchStep ct fs hashes index now).dispatched = none) ∨
    (∃ h sub, mapLookup h fs.subscriptions = some sub ∧
      sub.beingProcessed = false ∧
      (fetchStep ct fs hashes index now).state = setBeingProcessed fs h true ∧
      (fetchStep ct fs hashes index now).dispatched =
        some (h, sub.sid, sub.fetchUrl)) := by
  by_cases hidx : index ≥ hashes.length
  · left
    simp only [fetchStep, if_pos hidx]
    exact ⟨trivial, trivial⟩
  · simp only [fetchStep, if_neg hidx]
    cases hm : mapLookup (hashes.getD index "") fs.subscriptions with
    | none =>
      left
      exact ⟨rfl, rfl⟩
    | some sub =>
      by_cases hb : sub.beingProcessed = true
      · left
        simp only [if_pos hb]
        exact ⟨trivial, trivial⟩
      · by_cases hc : shouldCleanup fs (hashes.getD index "") now ct = true
        · right; left
          refine ⟨hashes.getD index "", sub, hm, Bool.not_eq_true _ ▸ hb, hc, ?_, ?_⟩
          · simp only [if_neg hb, if_pos hc]
          · simp only [if_neg hb, if_pos hc]
        · right; right
          refine ⟨hashes.getD index "", sub, hm, Bool.not_eq_true _ ▸ hb, ?_, ?_⟩
          · simp only [if_neg hb, if_neg hc]
          · simp only [if_neg hb, if_neg hc]

theorem subscribeUpsert_nextCallbackId (fs : FetcherState) (sa : SourceAddress)
    (url : String) (now : Nat) :
    (subscribeUpsert fs sa url now).nextCallbackId = fs.nextCallbackId + 1 := by
  cases hx : mapLookup sa.getUniqueIdentifier fs.subscriptions with
  | none => rw [subscribeUpsert_fresh hx]
  | some sub => rw [subscribeUpsert_existing hx]

theorem subscribeUpsert_subIds_mem (fs : FetcherState) (sa : SourceAddress)
    (url : String) (now : Nat) :
    ∀ a ∈ subIds (subscribeUpsert fs sa url now).subscriptions,
      a ∈ subIds fs.subscriptions ∨ a = fs.nextCallbackId := by
  intro a ha
  cases hx : mapLookup sa.getUniqueIdentifier fs.subscriptions with
  | none =>
    rw [subscribeUpsert_fresh hx] at ha
    simp only [subIds_append_fresh] at ha
    rcases List.mem_append.1 ha with ha | ha
    · exact Or.inl ha
    · exact Or.inr (List.mem_singleton.1 ha)
  | some sub =>
    rw [subscribeUpsert_existing hx] at ha
    have hE := subIds_perm_erase hx
    have hM := subIds_mapModify_perm hx
      (fun s => { s with subscribers := s.subscribers ++ [fs.nextCallbackId] })
    have ha2 := hM.subset ha
    rcases List.mem_append.1 ha2 with hc2 | hc2
    · rcases List.mem_append.1 hc2 with hc2 | hc2
      · exact Or.inl (hE.symm.subset (List.mem_append.2 (Or.inl hc2)))
      · exact Or.inr (List.mem_singleton.1 hc2)
    · exact Or.inl (hE.symm.subset (List.mem_append.2 (Or.inr hc2)))

theorem inv_step {cleanupTime : Nat} {s : SysState} (hs : Inv s) (e : Event) :
    Inv (stepEv cleanupTime s e).1 := by
  obtain ⟨fs, fl⟩ := s
  cases e with
  | subscribe sa now => exact inv_subscribe hs sa now
  | visit hashes index now =>
    rcases fetchStep_cases cleanupTime fs hashes index now with
      ⟨hst, hd⟩ | ⟨h, sub, hsub, hflag, hcl, hst, hd⟩ | ⟨h, sub, hsub, hflag, hst, hd⟩
    · simp only [stepEv, hst, hd]
      exact hs
    · simp only [stepEv, hst, hd]
      exact inv_cleanup hs h
    · simp only [stepEv, hst, hd]
      exact inv_dispatch hs hsub hflag
  | respond h sid =>
    by_cases hin : (h, sid) ∈ fl
    · simp only [stepEv, if_pos hin]
      exact inv_respond hs hin
    · simp only [stepEv, if_neg hin]
      exact hs
  | bodyReady h ok body =>
    cases ok with
    | false => exact hs
    | true =>
      cases hx : mapLookup h fs.subscriptions with
      | none =>
        have heq : (stepEv cleanupTime ⟨fs, fl⟩ (Event.bodyReady h true body)).1 =
            ⟨fs, fl⟩ := by
          simp [stepEv, notifySubscribers, hx]
        rw [heq]
        exact hs
      | some sub =>
        have heq : (stepEv cleanupTime ⟨fs, fl⟩ (Event.bodyReady h true body)).1 =
            ⟨cleanup fs h, fl⟩ := by
          simp [stepEv, notifySubscribers, hx]
        rw [heq]
        exact inv_cleanup hs h

theorem inv_init : Inv initSys := by
  refine ⟨?_, ?_, ?_, ?_, ?_, ?_, ?_, ?_, ?_, ?_⟩
  · simp [initSys, initFetcher]
  · simp [initSys, initFetcher]
  · intro c hc
    simp [initSys, initFetcher, subIds] at hc
  · simp [initSys, initFetcher, subIds]
  · intro h sub hl
    simp [initSys, initFetcher, mapLookup] at hl
  · intro h₁ h₂ sub₁ sub₂ hl₁ hl₂ hsid
    simp [initSys, initFetcher, mapLookup] at hl₁
  · intro q hq
    simp [initSys] at hq
  · simp [initSys]
  · intro h sub hl
    simp [initSys, initFetcher, mapLookup] at hl
  · intro h sub hl
    simp [initSys, initFetcher, mapLookup] at hl

theorem inv_run {cleanupTime : Nat} :
    ∀ (evs : List Event) (s : SysState), Inv s →
      Inv (runEv cleanupTime s evs).1 := by
  intro evs
  induction evs with
  | nil => intro s hs; exact hs
  | cons e es ih => intro s hs; exact ih _ (inv_step hs e)

theorem reachable_inv {cleanupTime : Nat} {s : SysState}
    (h : Reachable cleanupTime s) : Inv s := by
  obtain ⟨evs, hevs⟩ := h
  rw [← hevs]
  exact inv_run evs initSys inv_init

theorem notify_none {fs : FetcherState} {h : String}
    (hx : mapLookup h fs.subscriptions = none) (body : String) :
    notifySubscribers fs h body = (fs, []) := by
  unfold notifySubscribers
  rw [hx]

theorem notify_some {fs : FetcherState} {h : String} {sub : Subscription}
    (hx : mapLookup h fs.subscriptions = some sub) (body : String) :
    notifySubscribers fs h body =
      (cleanup fs h, sub.subscribers.map (fun c => (c, body))) := by
  unfold notifySubscribers
  rw [hx]

theorem clearFlag_subscribers_eq (sid : Nat) :
    ∀ x : Subscription,
      (if x.sid = sid then { x with beingProcessed := false } else x).subscribers =
        x.subscribers := by
  intro x
  by_cases hx : x.sid = sid
  · rw [if_pos hx]
  · rw [if_neg hx]

theorem notify_fired_eq {fs : FetcherState} {h : String} {sub : Subscription}
    (hx : mapLookup h fs.subscriptions = some sub) (body : String) :
    (notifySubscribers fs h body).2.map Prod.fst = sub.subscribers := by
  rw [notify_some hx body]
  rw [List.map_map]
  exact List.map_id _

theorem step_fired_subset {cleanupTime : Nat} (s : SysState) (e : Event) :
    ∀ c ∈ (stepEv cleanupTime s e).2.map Prod.fst,
      c ∈ subIds s.fs.subscriptions := by
  intro c hc
  cases e with
  | subscribe sa now => simp [stepEv] at hc
  | visit hashes index now => simp [stepEv] at hc
  | respond h sid =>
    by_cases hin : (h, sid) ∈ s.inFlight
    · simp [stepEv, if_pos hin] at hc
    · simp [stepEv, if_neg hin] at hc
  | bodyReady h ok body =>
    cases ok with
    | false => simp [stepEv] at hc
    | true =>
      cases hx : mapLookup h s.fs.subscriptions with
      | none => simp [stepEv, notifySubscribers, hx] at hc
      | some sub =>
        rw [show (stepEv cleanupTime s (Event.bodyReady h true body)).2 =
            (notifySubscribers s.fs h body).2 from rfl,
          notify_fired_eq hx] at hc
        exact mem_subIds_of_lookup hx hc

theorem step_fired_nodup {cleanupTime : Nat} (s : SysState) (hs : Inv s)
    (e : Event) : ((stepEv cleanupTime s e).2.map Prod.fst).Nodup := by
  cases e with
  | subscribe sa now => simp [stepEv]
  | visit hashes index now => simp [stepEv]
  | respond h sid =>
    by_cases hin : (h, sid) ∈ s.inFlight
    · simp [stepEv, if_pos hin]
    · simp [stepEv, if_neg hin]
  | bodyReady h ok body =>
    cases ok with
    | false => simp [stepEv]
    | true =>
      cases hx : mapLookup h s.fs.subscriptions with
      | none => simp [stepEv, notifySubscribers, hx]
      | some sub =>
        rw [show (stepEv cleanupTime s (Event.bodyReady h true body)).2 =
            (notifySubscribers s.fs h body).2 from rfl,
          notify_fired_eq hx]
        have := (List.Perm.nodup_iff (subIds_perm_erase hx)).1 hs.idsNodup
        exact (List.nodup_append.1 this).1

theorem step_fired_disjoint {cleanupTime : Nat} (s : SysState) (hs : Inv s)
    (e : Event) :
    ∀ c ∈ (stepEv cleanupTime s e).2.map Prod.fst,
      c ∉ subIds (stepEv cleanupTime s e).1.fs.subscriptions := by
  intro c hc
  cases e with
  | subscribe sa now => simp [stepEv] at hc
  | visit hashes index now => simp [stepEv] at hc
  | respond h sid =>
    by_cases hin : (h, sid) ∈ s.inFlight
    · simp [stepEv, if_pos hin] at hc
    · simp [stepEv, if_neg hin] at hc
  | bodyReady h ok body =>
    cases ok with
    | false => simp [stepEv] at hc
    | true =>
      cases hx : mapLookup h s.fs.subscriptions with
      | none => simp [stepEv, notifySubscribers, hx] at hc
      | some sub =>
        rw [show (stepEv cleanupTime s (Event.bodyReady h true body)).2 =
            (notifySubscribers s.fs h body).2 from rfl,
          notify_fired_eq hx] at hc
        intro hmem
        have heq : (stepEv cleanupTime s (Event.bodyReady h true body)).1.fs =
            (notifySubscribers s.fs h body).1 := rfl
        rw [heq, notify_some hx body] at hmem
        have hmem2 : c ∈ subIds (mapErase h s.fs.subscriptions) := hmem
        have hnd := (List.Perm.nodup_iff (subIds_perm_erase hx)).1 hs.idsNodup
        exact (List.nodup_append.1 hnd).2.2 hc hmem2

theorem step_nextCallbackId_mono {cleanupTime : Nat} (s : SysState) (e : Event) :
    s.fs.nextCallbackId ≤ (stepEv cleanupTime s e).1.fs.nextCallbackId := by
  cases e with
  | subscribe sa now =>
    cases hg : findGateway sa with
    | error msg =>
      have heq : (stepEv cleanupTime s (Event.subscribe sa now)).1.fs = s.fs := by
        simp [stepEv, SourceFetcher.subscribe, hg]
      rw [heq]
    | ok g =>
      have heq : (stepEv cleanupTime s (Event.subscribe sa now)).1.fs =
          subscribeUpsert s.fs sa (g.createUrl sa.id) now := by
        simp [stepEv, SourceFetcher.subscribe, hg]
      rw [heq, subscribeUpsert_nextCallbackId]
      exact Nat.le_succ _
  | visit hashes index now =>
    rcases fetchStep_cases cleanupTime s.fs hashes index now with
      ⟨hst, _⟩ | ⟨h, sub, _, _, _, hst, _⟩ | ⟨h, sub, _, _, hst, _⟩ <;>
      · have heq : (stepEv cleanupTime s (Event.visit hashes index now)).1.fs =
            (fetchStep cleanupTime s.fs hashes index now).state := rfl
        rw [heq, hst]
        try exact le_refl _
  | respond h sid =>
    by_cases hin : (h, sid) ∈ s.inFlight
    · have heq : (stepEv cleanupTime s (Event.respond h sid)).1.fs =
          clearFlagIfSid s.fs h sid := by
        simp [stepEv, if_pos hin]
      rw [heq]
      exact le_refl _
    · have heq : (stepEv cleanupTime s (Event.respond h sid)).1.fs = s.fs := by
        simp [stepEv, if_neg hin]
      rw [heq]
  | bodyReady h ok body =>
    cases ok with
    | false => exact le_refl _
    | true =>
      cases hx : mapLookup h s.fs.subscriptions with
      | none =>
        have heq : (stepEv cleanupTime s (Event.bodyReady h true body)).1.fs =
            s.fs := by
          simp [stepEv, notifySubscribers, hx]
        rw [heq]
      | some sub =>
        have heq : (stepEv cleanupTime s (Event.bodyReady h true body)).1.fs =
            cleanup s.fs h := by
          simp [stepEv, notifySubscribers, hx]
        rw [heq]
        exact le_refl _

theorem step_subIds_mem {cleanupTime : Nat} (s : SysState) (e : Event) :
    ∀ a ∈ subIds (stepEv cleanupTime s e).1.fs.subscriptions,
      a ∈ subIds s.fs.subscriptions ∨ a = s.fs.nextCallbackId := by
  intro a ha
  cases e with
  | subscribe sa now =>
    cases hg : findGateway sa with
    | error msg =>
      have heq : (stepEv cleanupTime s (Event.subscribe sa now)).1.fs = s.fs := by
        simp [stepEv, SourceFetcher.subscribe, hg]
      rw [heq] at ha
      exact Or.inl ha
    | ok g =>
      have heq : (stepEv cleanupTime s (Event.subscribe sa now)).1.fs =
          subscribeUpsert s.fs sa (g.createUrl sa.id) now := by
        simp [stepEv, SourceFetcher.subscribe, hg]
      rw [heq] at ha
      exact subscribeUpsert_subIds_mem s.fs sa _ now a ha
  | visit hashes index now =>
    have heq : (stepEv cleanupTime s (Event.visit hashes index now)).1.fs =
        (fetchStep cleanupTime s.fs hashes index now).state := rfl
    rw [heq] at ha
    rcases fetchStep_cases cleanupTime s.fs hashes index now with
      ⟨hst, _⟩ | ⟨h, sub, _, _, _, hst, _⟩ | ⟨h, sub, _, _, hst, _⟩
    · rw [hst] at ha
      exact Or.inl ha
    · rw [hst] at ha
      exact Or.inl ((subIds_mapErase_sublist h s.fs.subscriptions).subset ha)
    · rw [hst] at ha
      rw [show (setBeingProcessed s.fs h true).subscriptions =
          mapModify h (fun x => { x with beingProcessed := true })
            s.fs.subscriptions from rfl,
        subIds_mapModify_of_subscribers_eq h
          (fun x => { x with beingProcessed := true }) (fun x => rfl)
          s.fs.subscriptions] at ha
      exact Or.inl ha
  | respond h sid =>
    by_cases hin : (h, sid) ∈ s.inFlight
    · have heq : (stepEv cleanupTime s (Event.respond h sid)).1.fs =
          clearFlagIfSid s.fs h sid := by
        simp [stepEv, if_pos hin]
      rw [heq] at ha
      rw [show (clearFlagIfSid s.fs h sid).subscriptions =
          mapModify h
            (fun sub =>
              if sub.sid = sid then { sub with beingProcessed := false } else sub)
            s.fs.subscriptions from rfl,
        subIds_mapModify_of_subscribers_eq h
          (fun sub =>
            if sub.sid = sid then { sub with beingProcessed := false } else sub)
          (clearFlag_subscribers_eq sid)
          s.fs.subscriptions] at ha
      exact Or.inl ha
    · have heq : (stepEv cleanupTime s (Event.respond h sid)).1.fs = s.fs := by
        simp [stepEv, if_neg hin]
      rw [heq] at ha
      exact Or.inl ha
  | bodyReady h ok body =>
    cases ok with
    | false => exact Or.inl ha
    | true =>
      cases hx : mapLookup h s.fs.subscriptions with
      | none =>
        have heq : (stepEv cleanupTime s (Event.bodyReady h true body)).1.fs =
            s.fs := by
          simp [stepEv, notifySubscribers, hx]
        rw [heq] at ha
        exact Or.inl ha
      | some sub =>
        have heq : (stepEv cleanupTime s (Event.bodyReady h true body)).1.fs =
            cleanup s.fs h := by
          simp [stepEv, notifySubscribers, hx]
        rw [heq] at ha
        exact Or.inl ((subIds_mapErase_sublist h s.fs.subscriptions).subset ha)

theorem run_fired_avoid {cleanupTime : Nat} :
    ∀ (evs : List Event) (s : SysState) (c : Nat),
      c < s.fs.nextCallbackId → c ∉ subIds s.fs.subscriptions →
      c ∉ (runEv cleanupTime s evs).2.map Prod.fst := by
  intro evs
  induction evs with
  | nil =>
    intro s c _ _ hc
    simp [runEv] at hc
  | cons e es ih =>
    intro s c hlt hni hc
    rw [show (runEv cleanupTime s (e :: es)).2 =
        (stepEv cleanupTime s e).2 ++
          (runEv cleanupTime (stepEv cleanupTime s e).1 es).2 from rfl,
      List.map_append] at hc
    rcases List.mem_append.1 hc with hc | hc
    · exact hni (step_fired_subset s e c hc)
    · refine ih (stepEv cleanupTime s e).1 c
        (lt_of_lt_of_le hlt (step_nextCallbackId_mono s e)) ?_ hc
      intro hmem
      rcases step_subIds_mem s e c hmem with hmem | hmem
      · exact hni hmem
      · rw [hmem] at hlt
        exact absurd hlt (lt_irrefl _)

theorem run_fired_nodup {cleanupTime : Nat} :
    ∀ (evs : List Event) (s : SysState), Inv s →
      ((runEv cleanupTime s evs).2.map Prod.fst).Nodup := by
  intro evs
  induction evs with
  | nil =>
    intro s _
    simp [runEv]
  | cons e es ih =>
    intro s hs
    rw [show (runEv cleanupTime s (e :: es)).2 =
        (stepEv cleanupTime s e).2 ++
          (runEv cleanupTime (stepEv cleanupTime s e).1 es).2 from rfl,
      List.map_append]
    refine List.nodup_append.2 ⟨step_fired_nodup s hs e, ih _ (inv_step hs e), ?_⟩
    intro c hc1 hc2
    have hlt : c < (stepEv cleanupTime s e).1.fs.nextCallbackId :=
      lt_of_lt_of_le (hs.idsLt c (step_fired_subset s e c hc1))
        (step_nextCallbackId_mono s e)
    exact run_fired_avoid es (stepEv cleanupTime s e).1 c hlt
      (step_fired_disjoint s hs e c hc1) hc2

theorem fetchStep_dispatches {ct : Nat} {fs : FetcherState} {hashes : List String}
    {index now : Nat} {h : String} {sub : Subscription}
    (hget : hashes.getD index "" = h) (hlen : index < hashes.length)
    (hsub : mapLookup h fs.subscriptions = some sub)
    (hflag : sub.beingProcessed = false)
    (hfresh : shouldCleanup fs h now ct = false) :
    fetchStep ct fs hashes index now =
      { state := setBeingProcessed fs h true,
        dispatched := some (h, sub.sid, sub.fetchUrl),
        next := (hashes, index + 1), fast := false } := by
  have hget2 : hashes[index]?.getD "" = h := by simpa using hget
  simp [fetchStep, Nat.not_le.mpr hlen, hget2, hsub, hflag, hfresh]

theorem fetchStep_skips_busy {ct : Nat} {fs : FetcherState} {hashes : List String}
    {index now : Nat} {h : String} {sub : Subscription}
    (hget : hashes.getD index "" = h) (hlen : index < hashes.length)
    (hsub : mapLookup h fs.subscriptions = some sub)
    (hflag : sub.beingProcessed = true) :
    fetchStep ct fs hashes index now =
      { state := fs, dispatched := none,
        next := (hashes, index + 1), fast := true } := by
  have hget2 : hashes[index]?.getD "" = h := by simpa using hget
  simp [fetchStep, Nat.not_le.mpr hlen, hget2, hsub, hflag]

theorem fetchStep_cleanups {ct : Nat} {fs : FetcherState} {hashes : List String}
    {index now : Nat} {h : String} {sub : Subscription}
    (hget : hashes.getD index "" = h) (hlen : index < hashes.length)
    (hsub : mapLookup h fs.subscriptions = some sub)
    (hflag : sub.beingProcessed = false)
    (hstale : shouldCleanup fs h now ct = true) :
    fetchStep ct fs hashes index now =
      { state := cleanup fs h, dispatched := none,
        next := (hashes, index + 1), fast := true } := by
  have hget2 : hashes[index]?.getD "" = h := by simpa using hget
  simp [fetchStep, Nat.not_le.mpr hlen, hget2, hsub, hflag, hstale]

/-- C6: when a dispatched fetch settles with a transport error or timeout,
or with a non-200 status whose body is then read, no subscriber callback is
invoked, the subscription and its timestamp remain in the maps (only the
in-flight flag of the captured subscription is cleared), and a subsequent
fetch-loop visit to the hash, as long as it has not gone stale, dispatches
a new request for it. -/
theorem failed_fetch_retried_later
    (ct : Nat) (s : SysState) (h : String) (sub : Subscription)
    (hsub : mapLookup h s.fs.subscriptions = some sub)
    (hin : (h, sub.sid) ∈ s.inFlight) :
    ((stepEv ct s (Event.respond h sub.sid)).2 = [] ∧
     (stepEv ct s (Event.respond h sub.sid)).1.fs.timestamps = s.fs.timestamps ∧
     mapLookup h (stepEv ct s (Event.respond h sub.sid)).1.fs.subscriptions =
       some { sub with beingProcessed := false }) ∧
    (∀ (s' : SysState) (body' : String),
      stepEv ct s' (Event.bodyReady h false body') = (s', [])) ∧
    (∀ (hashes : List String) (index now : Nat),
      hashes.getD index "" = h → index < hashes.length →
      shouldCleanup (stepEv ct s (Event.respond h sub.sid)).1.fs h now ct = false →
      (fetchStep ct (stepEv ct s (Event.respond h sub.sid)).1.fs hashes index
          now).dispatched = some (h, sub.sid, sub.fetchUrl)) := by
  have heq : stepEv ct s (Event.respond h sub.sid) =
      ({ fs := clearFlagIfSid s.fs h sub.sid,
         inFlight := s.inFlight.erase (h, sub.sid) }, []) := by
    simp [stepEv, hin]
  have hlook : mapLookup h (clearFlagIfSid s.fs h sub.sid).subscriptions =
      some { sub with beingProcessed := false } := by
    rw [clearFlagIfSid_lookup, if_pos rfl, hsub, Option.map_some', if_pos rfl]
  refine ⟨⟨by rw [heq], by rw [heq]; rfl, by rw [heq]; exact hlook⟩, ?_, ?_⟩
  · intro s' body'
    rfl
  · intro hashes index now hget hlen hfresh
    rw [heq] at hfresh ⊢
    rw [fetchStep_dispatches hget hlen hlook rfl hfresh]

theorem failed_fetch_retried_later_witness :
    mapLookup "ipfs:Qm1" busySys.fs.subscriptions = some busySub ∧
    ("ipfs:Qm1", busySub.sid) ∈ busySys.inFlight ∧
    (((stepEv 99 busySys (Event.respond "ipfs:Qm1" busySub.sid)).2 = [] ∧
      (stepEv 99 busySys (Event.respond "ipfs:Qm1" busySub.sid)).1.fs.timestamps =
        busySys.fs.timestamps ∧
      mapLookup "ipfs:Qm1"
        (stepEv 99 busySys
          (Event.respond "ipfs:Qm1" busySub.sid)).1.fs.subscriptions =
        some { busySub with beingProcessed := false }) ∧
     (∀ (s' : SysState) (body' : String),
       stepEv 99 s' (Event.bodyReady "ipfs:Qm1" false body') = (s', [])) ∧
     (∀ (hashes : List String) (index now : Nat),
       hashes.getD index "" = "ipfs:Qm1" → index < hashes.length →
       shouldCleanup
         (stepEv 99 busySys (Event.respond "ipfs:Qm1" busySub.sid)).1.fs
         "ipfs:Qm1" now 99 = false →
       (fetchStep 99
         (stepEv 99 busySys (Event.respond "ipfs:Qm1" busySub.sid)).1.fs
         hashes index now).dispatched =
         some ("ipfs:Qm1", busySub.sid, busySub.fetchUrl))) :=
  ⟨by decide, by decide,
   failed_fetch_retried_later 99 busySys "ipfs:Qm1" busySub
     (by decide) (by decide)⟩

/-- C2: in every iteration of the fetch loop, a hash at the current index
that is not (or no longer) in the subscription map is skipped as a fast
step, the loop continuing at index + 1 with the state untouched and no
request dispatched; and every iteration, on any input whatsoever,
reschedules the loop (at index + 1, or at index 0 over the current key set
once the cycle is exhausted), so visiting an unsubscribed hash never
terminates the loop. -/
theorem fetch_skips_unsubscribed_and_always_reschedules
    (cleanupTime : Nat) (fs : FetcherState) (sourceHashes : List String)
    (index now : Nat)
    (hidx : index < sourceHashes.length)
    (hun : mapLookup (sourceHashes.getD index "") fs.subscriptions = none) :
    fetchStep cleanupTime fs sourceHashes index now =
      { state := fs, dispatched := none,
        next := (sourceHashes, index + 1), fast := true } ∧
    ∀ (fs' : FetcherState) (hashes' : List String) (i' now' : Nat),
      (fetchStep cleanupTime fs' hashes' i' now').next =
        if i' < hashes'.length then (hashes', i' + 1)
        else (fs'.subscriptions.map Prod.fst, 0) := by
  constructor
  · simp only [fetchStep, if_neg (Nat.not_le.mpr hidx), hun]
  · intro fs' hashes' i' now'
    by_cases hi : i' < hashes'.length
    · rw [if_pos hi]
      simp only [fetchStep, if_neg (Nat.not_le.mpr hi)]
      split
      · rfl
      · split
        · rfl
        · split
          · rfl
          · rfl
    · rw [if_neg hi]
      simp only [fetchStep, if_pos (Nat.le_of_not_lt hi)]

theorem fetch_skips_unsubscribed_and_always_reschedules_witness :
    0 < (["h"] : List String).length ∧
    mapLookup ((["h"] : List String).getD 0 "") initFetcher.subscriptions = none ∧
    (fetchStep 7 initFetcher ["h"] 0 0 =
      { state := initFetcher, dispatched := none, next := (["h"], 1), fast := true } ∧
     ∀ (fs' : FetcherState) (hashes' : List String) (i' now' : Nat),
       (fetchStep 7 fs' hashes' i' now').next =
         if i' < hashes'.length then (hashes', i' + 1)
         else (fs'.subscriptions.map Prod.fst, 0)) :=
  ⟨by decide, by decide,
   fetch_skips_unsubscribed_and_always_reschedules 7 initFetcher ["h"] 0 0
     (by decide) (by decide)⟩

/-- C5: when the origin of the source address has a registered gateway,
`subscribe` succeeds, creates the subscription if the unique identifier is
new and otherwise keeps the existing one with all its previous subscribers,
in both cases setting the hash's timestamp to the current time and
appending the callback; distinctness of the map's keys is preserved, so
there is never more than one subscription per unique identifier. -/
theorem subscribe_upserts_single_subscription
    (fs : FetcherState) (sa : SourceAddress) (now : Nat) (g : SimpleGateway)
    (hg : findGateway sa = Except.ok g) :
    (SourceFetcher.subscribe fs sa now).2 = none ∧
    mapLookup sa.getUniqueIdentifier
      (SourceFetcher.subscribe fs sa now).1.timestamps = some now ∧
    (mapLookup sa.getUniqueIdentifier fs.subscriptions = none →
      mapLookup sa.getUniqueIdentifier
        (SourceFetcher.subscribe fs sa now).1.subscriptions =
        some { sourceAddress := sa, fetchUrl := g.createUrl sa.id,
               beingProcessed := false, subscribers := [fs.nextCallbackId],
               sid := fs.nextSid }) ∧
    (∀ sub, mapLookup sa.getUniqueIdentifier fs.subscriptions = some sub →
      mapLookup sa.getUniqueIdentifier
        (SourceFetcher.subscribe fs sa now).1.subscriptions =
        some { sub with subscribers := sub.subscribers ++ [fs.nextCallbackId] }) ∧
    ((fs.subscriptions.map Prod.fst).Nodup →
      ((SourceFetcher.subscribe fs sa now).1.subscriptions.map Prod.fst).Nodup) := by
  have hs : SourceFetcher.subscribe fs sa now =
      (subscribeUpsert fs sa (g.createUrl sa.id) now, none) := by
    simp [SourceFetcher.subscribe, hg]
  rw [hs]
  refine ⟨rfl, ?_, ?_, ?_, ?_⟩
  · simp only [subscribeUpsert]
    by_cases hnone : (mapLookup sa.getUniqueIdentifier fs.subscriptions).isNone
    · simp only [hnone, if_pos]
      exact mapLookup_mapSet_self _ _ _
    · simp only [hnone, if_neg]
      exact mapLookup_mapSet_self _ _ _
  · intro hnone
    simp only [subscribeUpsert, hnone, Option.isNone_none, if_pos]
    rw [mapModify_append_fresh hnone, mapLookup_append_fresh hnone]
    rfl
  · intro sub hsub
    have hisNone : (mapLookup sa.getUniqueIdentifier fs.subscriptions).isNone = false := by
      rw [hsub]; rfl
    simp only [subscribeUpsert, hisNone, Bool.false_eq_true, if_neg, not_false_iff]
    rw [mapLookup_mapModify_self, hsub]
    rfl
  · intro hnd
    simp only [subscribeUpsert]
    by_cases hnone : (mapLookup sa.getUniqueIdentifier fs.subscriptions).isNone
    · simp only [hnone, if_pos]
      rw [keys_mapModify, List.map_append]
      simp only [List.map_cons, List.map_nil]
      have hmem : sa.getUniqueIdentifier ∉ fs.subscriptions.map Prod.fst := by
        rw [← mapLookup_eq_none (α := Subscription)]
        cases hx : mapLookup sa.getUniqueIdentifier fs.subscriptions with
        | none => rfl
        | some v => rw [hx] at hnone; simp at hnone
      have hperm := List.perm_append_singleton sa.getUniqueIdentifier
        (fs.subscriptions.map Prod.fst)
      rw [List.Perm.nodup_iff hperm]
      exact List.nodup_cons.mpr ⟨hmem, hnd⟩
    · simp only [hnone, if_neg]
      rw [keys_mapModify]
      exact hnd

theorem subscribe_upserts_single_subscription_witness :
    findGateway ⟨"ipfs", "Qm1"⟩ =
      Except.ok { origins := ["ipfs"],
                  baseUrl := "https://ipfs.infura.io:5001/api/v0/cat?arg=" } ∧
    ((SourceFetcher.subscribe initFetcher ⟨"ipfs", "Qm1"⟩ 42).2 = none ∧
     mapLookup (SourceAddress.getUniqueIdentifier ⟨"ipfs", "Qm1"⟩)
       (SourceFetcher.subscribe initFetcher ⟨"ipfs", "Qm1"⟩ 42).1.timestamps =
       some 42 ∧
     (mapLookup (SourceAddress.getUniqueIdentifier ⟨"ipfs", "Qm1"⟩)
        initFetcher.subscriptions = none →
       mapLookup (SourceAddress.getUniqueIdentifier ⟨"ipfs", "Qm1"⟩)
         (SourceFetcher.subscribe initFetcher ⟨"ipfs", "Qm1"⟩ 42).1.subscriptions =
         some { sourceAddress := ⟨"ipfs", "Qm1"⟩,
                fetchUrl :=
                  SimpleGateway.createUrl
                    { origins := ["ipfs"],
                      baseUrl := "https://ipfs.infura.io:5001/api/v0/cat?arg=" }
                    "Qm1",
                beingProcessed := false, subscribers := [initFetcher.nextCallbackId],
                sid := initFetcher.nextSid }) ∧
     (∀ sub, mapLookup (SourceAddress.getUniqueIdentifier ⟨"ipfs", "Qm1"⟩)
          initFetcher.subscriptions = some sub →
       mapLookup (SourceAddress.getUniqueIdentifier ⟨"ipfs", "Qm1"⟩)
         (SourceFetcher.subscribe initFetcher ⟨"ipfs", "Qm1"⟩ 42).1.subscriptions =
         some { sub with subscribers := sub.subscribers ++ [initFetcher.nextCallbackId] }) ∧
     ((initFetcher.subscriptions.map Prod.fst).Nodup →
       ((SourceFetcher.subscribe initFetcher ⟨"ipfs", "Qm1"⟩ 42).1.subscriptions.map
          Prod.fst).Nodup)) :=
  ⟨by rfl,
   subscribe_upserts_single_subscription initFetcher ⟨"ipfs", "Qm1"⟩ 42
     { origins := ["ipfs"],
       baseUrl := "https://ipfs.infura.io:5001/api/v0/cat?arg=" }
     (by rfl)⟩

/-- C7: one iteration of `processBlock` always schedules exactly one next
iteration (the function totally returns the single block number passed to
the `finally` rescheduling): N + 1 when the RPC returned a block, whatever
its transactions, and the same N when the RPC returned no block or the
fetch failed. -/
theorem processBlock_schedules_exactly_one_next
    (blockNumber : Nat) (txs : List Tx) (tries : Int) :
    (processBlock blockNumber (BlockResult.found txs) tries).1 = blockNumber + 1 ∧
    (processBlock blockNumber BlockResult.noBlock tries).1 = blockNumber ∧
    (processBlock blockNumber BlockResult.failed tries).1 = blockNumber :=
  ⟨rfl, rfl, rfl⟩

/-- C8: `processBytecode` issues at most `retriesLeft` `eth_getCode` calls
however long the oracle of RPC outcomes is, a call with zero or fewer tries
remaining returns immediately with no RPC call, and an empty (`0x`) result
or an RPC failure reschedules with the counter decremented by one. -/
theorem processBytecode_retry_bound (retriesLeft : Int) (results : List CodeResult) :
    processBytecode retriesLeft results ≤ retriesLeft.toNat ∧
    (retriesLeft ≤ 0 → processBytecode retriesLeft results = 0) ∧
    (0 < retriesLeft →
      processBytecode retriesLeft (CodeResult.empty :: results) =
        1 + processBytecode (retriesLeft - 1) results ∧
      processBytecode retriesLeft (CodeResult.rpcError :: results) =
        1 + processBytecode (retriesLeft - 1) results) := by
  have hb : ∀ (res : List CodeResult) (r : Int), processBytecode r res ≤ r.toNat := by
    intro res
    induction res with
    | nil =>
      intro r
      by_cases h : r ≤ 0
      · simp [processBytecode, h]
      · simp only [processBytecode, if_neg h]
        omega
    | cons c rest ih =>
      intro r
      by_cases h : r ≤ 0
      · simp [processBytecode, h]
      · cases c with
        | code bytecode =>
          simp only [processBytecode, if_neg h]
          omega
        | empty =>
          simp only [processBytecode, if_neg h]
          have := ih (r - 1)
          omega
        | rpcError =>
          simp only [processBytecode, if_neg h]
          have := ih (r - 1)
          omega
  refine ⟨hb results retriesLeft, ?_, ?_⟩
  · intro h
    cases results with
    | nil => simp [processBytecode, h]
    | cons c rest => simp [processBytecode, h]
  · intro h
    have hneg : ¬retriesLeft ≤ 0 := by omega
    constructor
    · simp [processBytecode, hneg]
    · simp [processBytecode, hneg]

theorem processBytecode_retry_bound_witness :
    (0 : Int) < 3 ∧
    processBytecode 3 (CodeResult.empty :: [CodeResult.empty, CodeResult.empty]) =
      1 + processBytecode 2 [CodeResult.empty, CodeResult.empty] :=
  ⟨by decide,
   ((processBytecode_retry_bound 3 [CodeResult.empty, CodeResult.empty]).2.2
     (by decide)).1⟩

/-- C10: when no registered gateway accepts the origin of the source
address, `subscribe` throws `Gateway not found for <origin>` before any
mutation: the returned state is exactly the state passed in, so the
subscription map, the timestamp map and both counters are untouched. -/
theorem subscribe_without_gateway_mutates_nothing
    (fs : FetcherState) (sa : SourceAddress) (now : Nat)
    (hng : ∀ g ∈ gateways, g.worksWith sa.origin = false) :
    SourceFetcher.subscribe fs sa now =
      (fs, some ("Gateway not found for " ++ sa.origin)) := by
  have hfind : gateways.find? (fun g => g.worksWith sa.origin) = none := by
    rw [List.find?_eq_none]
    intro g hgm
    simp [hng g hgm]
  simp [SourceFetcher.subscribe, findGateway, hfind]

theorem subscribe_without_gateway_mutates_nothing_witness :
    (∀ g ∈ gateways, g.worksWith "http" = false) ∧
    SourceFetcher.subscribe initFetcher ⟨"http", "x"⟩ 5 =
      (initFetcher, some ("Gateway not found for " ++ "http")) :=
  ⟨by decide,
   subscribe_without_gateway_mutates_nothing initFetcher ⟨"http", "x"⟩ 5 (by decide)⟩

/-- C9 (modelled from the spec; the Injector's source is not in this tree):
a successful inject that yields a perfect match stores, at the repository
path `ipfs/<hash of metadata>`, exactly the caller's metadata bytes; a
partial match with library links stores, at
`partial_matches/<chain>/<address>/metadata.json`, the caller's metadata
with the link addresses substituted into `settings.libraries`. -/
theorem inject_stores_caller_metadata
    (repo : List (String × String)) (chain address : String) (m : Metadata)
    (links : List (String × String)) (onchain : List Nat)
    (recompile : Metadata → List Nat) (ipfsHashOf : String → String) :
    (matchBytecodes onchain (recompile m) = MatchResult.perfect →
      ∃ repo', inject repo chain address m none onchain recompile ipfsHashOf =
          Except.ok (repo', MatchResult.perfect) ∧
        mapLookup ("ipfs/" ++ ipfsHashOf m.serialize) repo' = some m.serialize) ∧
    (matchBytecodes onchain (recompile (addLibraryLinksToMetadata links m)) =
        MatchResult.partialMatch →
      ∃ repo', inject repo chain address m (some links) onchain recompile ipfsHashOf =
          Except.ok (repo', MatchResult.partialMatch) ∧
        mapLookup ("partial_matches/" ++ chain ++ "/" ++ address ++ "/metadata.json")
          repo' = some (addLibraryLinksToMetadata links m).serialize) := by
  constructor
  · intro hperfect
    refine ⟨mapSet ("ipfs/" ++ ipfsHashOf m.serialize) m.serialize repo, ?_, ?_⟩
    · simp [inject, hperfect]
    · exact mapLookup_mapSet_self _ _ _
  · intro hpart
    refine ⟨mapSet ("partial_matches/" ++ chain ++ "/" ++ address ++ "/metadata.json")
      (addLibraryLinksToMetadata links m).serialize repo, ?_, ?_⟩
    · simp [inject, hpart]
    · exact mapLookup_mapSet_self _ _ _

theorem inject_stores_caller_metadata_witness :
    matchBytecodes [7]
      ((fun (_ : Metadata) => ([7] : List Nat))
        { pre := "A", libraries := [], post := "B" }) = MatchResult.perfect ∧
    ∃ repo', inject [] "localhost" "0xabc" { pre := "A", libraries := [], post := "B" }
        none [7] (fun (_ : Metadata) => ([7] : List Nat)) (fun (_ : String) => "H1") =
        Except.ok (repo', MatchResult.perfect) ∧
      mapLookup ("ipfs/" ++ (fun (_ : String) => "H1")
          (Metadata.serialize { pre := "A", libraries := [], post := "B" })) repo' =
        some (Metadata.serialize { pre := "A", libraries := [], post := "B" }) :=
  ⟨by decide,
   (inject_stores_caller_metadata [] "localhost" "0xabc"
     { pre := "A", libraries := [], post := "B" } [] [7]
     (fun (_ : Metadata) => ([7] : List Nat)) (fun (_ : String) => "H1")).1
     (by decide)⟩

/-- C1: on the first successful (HTTP 200) fetch of a subscribed
content-hash, the subscription is removed from the subscription map before
any callback runs — the state paired with the invocation list no longer
contains it — and each registered callback is invoked exactly once with the
response body; a hash that is no longer subscribed notifies nobody, neither
the settlement of a fetch nor a non-200 body completion invokes any
callback, and over any event trace from the initial state no callback
identity is ever invoked a second time. -/
theorem notify_fires_each_callback_exactly_once
    (ct : Nat) (fs : FetcherState) (h body : String)
    (hnd : (fs.subscriptions.map Prod.fst).Nodup) :
    (∀ sub, mapLookup h fs.subscriptions = some sub →
      mapLookup h (notifySubscribers fs h body).1.subscriptions = none ∧
      (notifySubscribers fs h body).2 =
        sub.subscribers.map (fun c => (c, body))) ∧
    (mapLookup h fs.subscriptions = none →
      notifySubscribers fs h body = (fs, [])) ∧
    (∀ (s : SysState) (body2 : String) (sid : Nat),
      (stepEv ct s (Event.bodyReady h false body2)).2 = [] ∧
      (stepEv ct s (Event.respond h sid)).2 = []) ∧
    (∀ evs : List Event, ((runEv ct initSys evs).2.map Prod.fst).Nodup) := by
  refine ⟨?_, ?_, ?_, ?_⟩
  · intro sub hsub
    rw [notify_some hsub body]
    exact ⟨mapLookup_mapErase_self hnd, rfl⟩
  · intro hnone
    exact notify_none hnone body
  · intro s body2 sid
    refine ⟨rfl, ?_⟩
    by_cases hin : (h, sid) ∈ s.inFlight
    · simp [stepEv, hin]
    · simp [stepEv, hin]
  · intro evs
    exact run_fired_nodup evs initSys inv_init

theorem notify_fires_each_callback_exactly_once_witness :
    (busyFetcher.subscriptions.map Prod.fst).Nodup ∧
    ((∀ sub, mapLookup "ipfs:Qm1" busyFetcher.subscriptions = some sub →
       mapLookup "ipfs:Qm1"
         (notifySubscribers busyFetcher "ipfs:Qm1" "B").1.subscriptions = none ∧
       (notifySubscribers busyFetcher "ipfs:Qm1" "B").2 =
         sub.subscribers.map (fun c => (c, "B"))) ∧
     (mapLookup "ipfs:Qm1" busyFetcher.subscriptions = none →
       notifySubscribers busyFetcher "ipfs:Qm1" "B" = (busyFetcher, [])) ∧
     (∀ (s : SysState) (body2 : String) (sid : Nat),
       (stepEv 7 s (Event.bodyReady "ipfs:Qm1" false body2)).2 = [] ∧
       (stepEv 7 s (Event.respond "ipfs:Qm1" sid)).2 = []) ∧
     (∀ evs : List Event, ((runEv 7 initSys evs).2.map Prod.fst).Nodup)) :=
  ⟨by decide,
   notify_fires_each_callback_exactly_once 7 busyFetcher "ipfs:Qm1" "B"
     (by decide)⟩

/-- C3 counterexample: the claim that for every subscribed hash at most one
HTTP request is outstanding at any time fails on the code.  The fetch
chain's `finally` clears `beingProcessed` when the fetch promise settles —
before `resp.text()` completes, since the inner promise is not returned —
so a visit during the body read dispatches a second request; the first
body's 200 notification then deletes the subscription while that second
request is still unsettled, and after a re-subscription the next visit
dispatches a third.  At the end of this trace the hash "ipfs:Qm1" has two
dispatched, unsettled HTTP requests outstanding simultaneously. -/
theorem two_outstanding_requests_for_one_hash :
    ((runEv 1000 initSys
      [Event.subscribe { origin := "ipfs", id := "Qm1" } 0,
       Event.visit ["ipfs:Qm1"] 0 1,
       Event.respond "ipfs:Qm1" 0,
       Event.visit ["ipfs:Qm1"] 0 2,
       Event.bodyReady "ipfs:Qm1" true "B",
       Event.subscribe { origin := "ipfs", id := "Qm1" } 3,
       Event.visit ["ipfs:Qm1"] 0 4]).1.inFlight.countP
        (fun p => p.1 == "ipfs:Qm1")) = 2 := by decide

/-- C3 amended: the at-most-one bound holds per Subscription OBJECT, not
per hash: in every reachable state the in-flight subscription identities
are pairwise distinct, and a live subscription's `beingProcessed` flag is
up exactly while the request dispatched on its own behalf is unsettled; a
fetch-loop visit to a hash whose current subscription is being processed is
skipped as a fast step without dispatching, and a dispatch only ever
happens for a subscription whose flag is down — hence one with no unsettled
request of its own. -/
theorem at_most_one_request_per_subscription_object
    (ct : Nat) (s : SysState) (hreach : Reachable ct s) :
    ((s.inFlight.map Prod.snd).Nodup ∧
     ∀ h sub, mapLookup h s.fs.subscriptions = some sub →
       (sub.beingProcessed = true ↔ (h, sub.sid) ∈ s.inFlight)) ∧
    (∀ (hashes : List String) (index now : Nat) (h : String) (sub : Subscription),
      hashes.getD index "" = h → index < hashes.length →
      mapLookup h s.fs.subscriptions = some sub → sub.beingProcessed = true →
      fetchStep ct s.fs hashes index now =
        { state := s.fs, dispatched := none,
          next := (hashes, index + 1), fast := true }) ∧
    (∀ (hashes : List String) (index now : Nat) (h url : String) (sid : Nat),
      (fetchStep ct s.fs hashes index now).dispatched = some (h, sid, url) →
      ∃ sub, mapLookup h s.fs.subscriptions = some sub ∧
        sub.beingProcessed = false ∧ sid = sub.sid ∧ (h, sid) ∉ s.inFlight) := by
  have hinv := reachable_inv hreach
  refine ⟨⟨hinv.inFlightSidsNodup, hinv.flagIff⟩, ?_, ?_⟩
  · intro hashes index now h sub hget hlen hsub hflag
    exact fetchStep_skips_busy hget hlen hsub hflag
  · intro hashes index now h url sid hdisp
    rcases fetchStep_cases ct s.fs hashes index now with
      ⟨_, hd⟩ | ⟨h₀, sub₀, _, _, _, _, hd⟩ | ⟨h₀, sub₀, hsub₀, hflag₀, _, hd⟩
    · rw [hd] at hdisp
      cases hdisp
    · rw [hd] at hdisp
      cases hdisp
    · rw [hd] at hdisp
      have hinj := Option.some.inj hdisp
      simp only [Prod.mk.injEq] at hinj
      obtain ⟨he1, he2, he3⟩ := hinj
      subst he1
      refine ⟨sub₀, hsub₀, hflag₀, he2.symm, ?_⟩
      rw [← he2]
      intro hmem
      have hup := (hinv.flagIff h₀ sub₀ hsub₀).2 hmem
      rw [hflag₀] at hup
      cases hup

theorem at_most_one_request_per_subscription_object_witness :
    Reachable 1000 (runEv 1000 initSys dispatchedTrace).1 ∧
    ((((runEv 1000 initSys dispatchedTrace).1.inFlight.map Prod.snd).Nodup ∧
      ∀ h sub,
        mapLookup h (runEv 1000 initSys dispatchedTrace).1.fs.subscriptions =
          some sub →
        (sub.beingProcessed = true ↔
          (h, sub.sid) ∈ (runEv 1000 initSys dispatchedTrace).1.inFlight)) ∧
     (∀ (hashes : List String) (index now : Nat) (h : String) (sub : Subscription),
       hashes.getD index "" = h → index < hashes.length →
       mapLookup h (runEv 1000 initSys dispatchedTrace).1.fs.subscriptions =
         some sub →
       sub.beingProcessed = true →
       fetchStep 1000 (runEv 1000 initSys dispatchedTrace).1.fs hashes index now =
         { state := (runEv 1000 initSys dispatchedTrace).1.fs, dispatched := none,
           next := (hashes, index + 1), fast := true }) ∧
     (∀ (hashes : List String) (index now : Nat) (h url : String) (sid : Nat),
       (fetchStep 1000 (runEv 1000 initSys dispatchedTrace).1.fs hashes index
           now).dispatched = some (h, sid, url) →
       ∃ sub,
         mapLookup h (runEv 1000 initSys dispatchedTrace).1.fs.subscriptions =
           some sub ∧
         sub.beingProcessed = false ∧ sid = sub.sid ∧
         (h, sid) ∉ (runEv 1000 initSys dispatchedTrace).1.inFlight)) :=
  ⟨⟨dispatchedTrace, rfl⟩,
   at_most_one_request_per_subscription_object 1000
     (runEv 1000 initSys dispatchedTrace).1 ⟨dispatchedTrace, rfl⟩⟩

/-- C4 counterexample: a subscription whose timestamp is already older than
cleanupTime when the fetch loop visits it is NOT deleted when a request for
it is in flight — the being-processed fast path is tested first — and its
callbacks can still fire.  In this trace with cleanupTime 10, the visit at
time 20 sees a stale subscription (timestamp 0) but leaves it in the map,
and the body arriving afterwards invokes its callback with the file. -/
theorem stale_visited_subscription_still_fires :
    shouldCleanup (runEv 10 initSys
      [Event.subscribe { origin := "ipfs", id := "Qm1" } 0,
       Event.visit ["ipfs:Qm1"] 0 1]).1.fs "ipfs:Qm1" 20 10 = true ∧
    mapLookup "ipfs:Qm1"
      (runEv 10 initSys
        [Event.subscribe { origin := "ipfs", id := "Qm1" } 0,
         Event.visit ["ipfs:Qm1"] 0 1,
         Event.visit ["ipfs:Qm1"] 0 20]).1.fs.subscriptions ≠ none ∧
    (runEv 10 initSys
      [Event.subscribe { origin := "ipfs", id := "Qm1" } 0,
       Event.visit ["ipfs:Qm1"] 0 1,
       Event.visit ["ipfs:Qm1"] 0 20,
       Event.respond "ipfs:Qm1" 0,
       Event.bodyReady "ipfs:Qm1" true "B"]).2 = [(0, "B")] := by
  refine ⟨by decide, by decide, by decide⟩

/-- C4 amended: a subscription that is stale when the fetch loop visits it
AND is not being processed at that visit is deleted together with its
timestamp, nothing is dispatched and no callback is invoked during the
cleanup, and none of its registered subscriber callbacks is ever invoked
afterwards, whatever events follow. -/
theorem stale_idle_subscription_dropped_silently
    (ct : Nat) (s : SysState) (hreach : Reachable ct s)
    (hashes : List String) (index now : Nat) (h : String) (sub : Subscription)
    (hget : hashes.getD index "" = h) (hlen : index < hashes.length)
    (hsub : mapLookup h s.fs.subscriptions = some sub)
    (hflag : sub.beingProcessed = false)
    (hstale : shouldCleanup s.fs h now ct = true) :
    fetchStep ct s.fs hashes index now =
      { state := cleanup s.fs h, dispatched := none,
        next := (hashes, index + 1), fast := true } ∧
    mapLookup h (cleanup s.fs h).subscriptions = none ∧
    mapLookup h (cleanup s.fs h).timestamps = none ∧
    (∀ evs : List Event, ∀ c ∈ sub.subscribers,
      c ∉ (runEv ct { fs := cleanup s.fs h, inFlight := s.inFlight }
            evs).2.map Prod.fst) := by
  have hinv := reachable_inv hreach
  refine ⟨fetchStep_cleanups hget hlen hsub hflag hstale, ?_, ?_, ?_⟩
  · exact mapLookup_mapErase_self hinv.subKeysNodup
  · exact mapLookup_mapErase_self hinv.tsKeysNodup
  · intro evs c hc
    have hclt : c < s.fs.nextCallbackId :=
      hinv.idsLt c (mem_subIds_of_lookup hsub hc)
    have hnd := (List.Perm.nodup_iff (subIds_perm_erase hsub)).1 hinv.idsNodup
    have hni : c ∉ subIds (mapErase h s.fs.subscriptions) :=
      (List.nodup_append.1 hnd).2.2 hc
    exact run_fired_avoid evs _ c hclt hni

theorem stale_idle_subscription_dropped_silently_witness :
    Reachable 10 (runEv 10 initSys subOnlyTrace).1 ∧
    (["ipfs:Qm1"] : List String).getD 0 "" = "ipfs:Qm1" ∧
    0 < (["ipfs:Qm1"] : List String).length ∧
    mapLookup "ipfs:Qm1"
      (runEv 10 initSys subOnlyTrace).1.fs.subscriptions = some idleSub ∧
    idleSub.beingProcessed = false ∧
    shouldCleanup (runEv 10 initSys subOnlyTrace).1.fs "ipfs:Qm1" 20 10 = true ∧
    (fetchStep 10 (runEv 10 initSys subOnlyTrace).1.fs ["ipfs:Qm1"] 0 20 =
      { state := cleanup (runEv 10 initSys subOnlyTrace).1.fs "ipfs:Qm1",
        dispatched := none, next := (["ipfs:Qm1"], 1), fast := true } ∧
     mapLookup "ipfs:Qm1"
       (cleanup (runEv 10 initSys subOnlyTrace).1.fs "ipfs:Qm1").subscriptions =
       none ∧
     mapLookup "ipfs:Qm1"
       (cleanup (runEv 10 initSys subOnlyTrace).1.fs "ipfs:Qm1").timestamps =
       none ∧
     (∀ evs : List Event, ∀ c ∈ idleSub.subscribers,
       c ∉ (runEv 10
             { fs := cleanup (runEv 10 initSys subOnlyTrace).1.fs "ipfs:Qm1",
               inFlight := (runEv 10 initSys subOnlyTrace).1.inFlight }
             evs).2.map Prod.fst)) :=
  ⟨⟨subOnlyTrace, rfl⟩, by decide, by decide, by decide, by decide, by decide,
   stale_idle_subscription_dropped_silently 10 (runEv 10 initSys subOnlyTrace).1
     ⟨subOnlyTrace, rfl⟩ ["ipfs:Qm1"] 0 20 "ipfs:Qm1" idleSub
     (by decide) (by decide) (by decide) (by decide) (by decide)⟩

end Sourcify
